import Mathlib

/-!
Detective Quest: clue ledger, suspect index and mansion map

A shallow embedding of `src/algoritmos_avancados.c`.

Conventions of the embedding

* A C string is the list of its bytes before the terminating NUL, each byte as
  its unsigned value (`CStr`).
* `char` is the signed 8-bit type of the x86-64 ABI: converting a byte `b` to
  `int` gives `b` below 128 and `b - 256` from 128 on (`charParaInt`).
* `int` is 32 bits wide; `valor += c` wraps in two's complement (`wrapInt`).
* `%` on `int` truncates toward zero (`Int.tmod`).
* An access `tabelaHash[indice]` outside `0 .. TAMANHO_TABELA - 1` has no
  defined result: the operations that perform it return `none`.
* `stdin` is the list of the bytes still to be read; `fgets` consumes from it.
* A pointer into the mansion map is the path from the root to the room it
  points to (the map is a strict tree); the pointer is `NULL` when the path
  leaves the tree.
* The tally `contagem` of `contarPistasPorSuspeito` is at most the number of
  nodes of the ledger, far below 2^31 for a ledger that fits in memory; it is
  kept as an integer without wrap-around.
* `printf` output is kept as a list of events (`Evento`), one per message that
  carries information; banners, the navigation menu and the per-clue lines of
  the tally are left out.
-/

namespace DetectiveQuest

/-! ## Constants -/

/-- Number of buckets of the hash table (`#define TAMANHO_TABELA 10`). -/
abbrev TAMANHO_TABELA : Nat := 10

/-- Minimum tally for a successful accusation (`#define MIN_PISTAS 2`). -/
abbrev MIN_PISTAS : Int := 2

/-! ## C strings -/

/-- The bytes of a C string, without the terminating NUL. -/
abbrev CStr := List Nat

/-- UTF-8 encoding of one character: the source file is UTF-8, so a string
literal holds these bytes. -/
def utf8Char (c : Char) : List Nat :=
  let n := c.toNat
  if n < 128 then [n]
  else if n < 2048 then [192 + n / 64, 128 + n % 64]
  else if n < 65536 then [224 + n / 4096, 128 + (n / 64) % 64, 128 + n % 64]
  else [240 + n / 262144, 128 + (n / 4096) % 64, 128 + (n / 64) % 64, 128 + n % 64]

/-- Bytes of a string literal of the source. -/
def bytes (s : String) : CStr :=
  s.toList.foldr (fun c acc => utf8Char c ++ acc) []

/-- Well-formed C string contents: every byte is a non-NUL `unsigned char`. -/
def BytesValidos (s : CStr) : Prop := ∀ b ∈ s, 1 ≤ b ∧ b ≤ 255

/-- The library function `strcmp`: bytes are compared as `unsigned char`; only
the sign of the result is specified, it is given here as `-1`, `0` or `1`. -/
def strcmp : CStr → CStr → Int
  | [], [] => 0
  | [], _ :: _ => -1
  | _ :: _, [] => 1
  | x :: xs, y :: ys => if x < y then -1 else if y < x then 1 else strcmp xs ys

/-- The idiom `strncpy(dst, src, sizeof(dst) - 1); dst[sizeof(dst) - 1] = 0`
with `n = sizeof(dst) - 1`: the first `n` bytes of `src`. -/
def strncpy (src : CStr) (n : Nat) : CStr := src.take n

/-- Conversion of a `char` to `int` where `char` is signed. -/
def charParaInt (b : Nat) : Int := if b < 128 then (b : Int) else (b : Int) - 256

/-- Two's complement wrap-around of a 32-bit `int`. -/
def wrapInt (v : Int) : Int := (v + 2147483648) % 4294967296 - 2147483648

/-! ## The hash table (Suspect Index) -/

/-- The type `struct HashItem` without its `proximo` link: a chain is a `List HashItem`. -/
structure HashItem where
  pista : CStr
  suspeito : CStr
  deriving DecidableEq, Repr

/-- The global `tabelaHash`: one chain per bucket. -/
abbrev TabelaHash := Fin TAMANHO_TABELA → List HashItem

/-- The table after `tabelaHash[i] = NULL` for every `i`. -/
def tabelaVazia : TabelaHash := fun _ => []

/-- The loop of `funcaoHash`, from accumulator `valor` over the rest of the key. -/
def funcaoHashLoop (valor : Int) : CStr → Int
  | [] => valor
  | c :: resto => funcaoHashLoop (wrapInt (valor + charParaInt c)) resto

/-- The function `int funcaoHash(const char *chave)`. -/
def funcaoHash (chave : CStr) : Int :=
  Int.tmod (funcaoHashLoop 0 chave) TAMANHO_TABELA

/-- The bucket designated by an `int` index, when it lies inside the array. -/
def indiceValido (i : Int) : Option (Fin TAMANHO_TABELA) :=
  if h : 0 ≤ i ∧ i < TAMANHO_TABELA then some ⟨i.toNat, by omega⟩ else none

/-- The function `void inserirNaHash(const char *pista, const char *suspeito)` on the table
`t`: the bucket is computed from the whole `pista`, the stored key and value are
the truncated copies. -/
def inserirNaHash (t : TabelaHash) (pista suspeito : CStr) : Option TabelaHash :=
  match indiceValido (funcaoHash pista) with
  | none => none
  | some indice =>
    let novoItem : HashItem := ⟨strncpy pista 79, strncpy suspeito 39⟩
    if t indice = [] then
      some (Function.update t indice [novoItem])
    else
      some (Function.update t indice (novoItem :: t indice))

/-- The `while (atual != NULL)` loop of `encontrarSuspeito` over one chain:
the return value and the buffer afterwards. -/
def encontrarNaLista (pista : CStr) (buffer : CStr) : List HashItem → Int × CStr
  | [] => (0, buffer)
  | atual :: proximo =>
    if strcmp atual.pista pista = 0 then (1, atual.suspeito.take 40)
    else encontrarNaLista pista buffer proximo

/-- The function `int encontrarSuspeito(const char *pista, char *buffer)` on the table `t`:
the return value and the contents of `buffer` afterwards. -/
def encontrarSuspeito (t : TabelaHash) (pista : CStr) (buffer : CStr) :
    Option (Int × CStr) :=
  match indiceValido (funcaoHash pista) with
  | none => none
  | some indice => some (encontrarNaLista pista buffer (t indice))

/-! ## The clue ledger (BST) -/

/-- The type `struct PistaNode *`: `nulo` is `NULL`. -/
inductive PistaNode where
  | nulo : PistaNode
  | no (conteudo : CStr) (esquerda direita : PistaNode) : PistaNode
  deriving DecidableEq, Repr

/-- The function `struct PistaNode* criarPistaNode(const char *conteudoPista)`. -/
def criarPistaNode (conteudoPista : CStr) : PistaNode :=
  .no (strncpy conteudoPista 79) .nulo .nulo

/-- The function `struct PistaNode* inserirPista(struct PistaNode *raiz, const char *conteudoPista)`. -/
def inserirPista : PistaNode → CStr → PistaNode
  | .nulo, conteudoPista => criarPistaNode conteudoPista
  | .no conteudo esquerda direita, conteudoPista =>
    let comparacao := strcmp conteudoPista conteudo
    if comparacao < 0 then
      .no conteudo (inserirPista esquerda conteudoPista) direita
    else if comparacao > 0 then
      .no conteudo esquerda (inserirPista direita conteudoPista)
    else
      .no conteudo esquerda direita

/-- The function `void exibirPistas(struct PistaNode *raiz)`: the contents printed, in the
order they are printed. -/
def exibirPistas : PistaNode → List CStr
  | .nulo => []
  | .no conteudo esquerda direita =>
    exibirPistas esquerda ++ conteudo :: exibirPistas direita

/-- Number of nodes of a ledger. -/
def PistaNode.tamanho : PistaNode → Nat
  | .nulo => 0
  | .no _ esquerda direita => esquerda.tamanho + 1 + direita.tamanho

/-- The ledger after inserting a sequence of clue texts, first to last. -/
def inserirTodas (raiz : PistaNode) (pistas : List CStr) : PistaNode :=
  pistas.foldl inserirPista raiz

/-- The test on the root node of `contarPistasPorSuspeito`: `1` when the
content resolves to the accused, else `0`; `suspeitoPista` starts as `""`. -/
def verificarRaiz (t : TabelaHash) (conteudo suspeitoAcusado : CStr) : Option Int :=
  match encontrarSuspeito t conteudo [] with
  | none => none
  | some (achou, suspeitoPista) =>
    if achou ≠ 0 then
      if strcmp suspeitoPista suspeitoAcusado = 0 then some 1 else some 0
    else some 0

/-- The function `int contarPistasPorSuspeito(struct PistaNode *raiz, const char *suspeitoAcusado)`
on the table `t`. -/
def contarPistasPorSuspeito (t : TabelaHash) : PistaNode → CStr → Option Int
  | .nulo, _ => some 0
  | .no conteudo esquerda direita, suspeitoAcusado => do
    let contagem : Int := 0
    let e ← contarPistasPorSuspeito t esquerda suspeitoAcusado
    let contagem := contagem + e
    let r ← verificarRaiz t conteudo suspeitoAcusado
    let contagem := contagem + r
    let d ← contarPistasPorSuspeito t direita suspeitoAcusado
    let contagem := contagem + d
    pure contagem

/-- The tally of `contarPistasPorSuspeito` computed in pre-order (root, left,
right) instead of in-order. -/
def contarPreOrdem (t : TabelaHash) : PistaNode → CStr → Option Int
  | .nulo, _ => some 0
  | .no conteudo esquerda direita, suspeitoAcusado => do
    let r ← verificarRaiz t conteudo suspeitoAcusado
    let e ← contarPreOrdem t esquerda suspeitoAcusado
    let d ← contarPreOrdem t direita suspeitoAcusado
    pure (r + e + d)

/-- The tally of `contarPistasPorSuspeito` computed in post-order (left, right,
root) instead of in-order. -/
def contarPosOrdem (t : TabelaHash) : PistaNode → CStr → Option Int
  | .nulo, _ => some 0
  | .no conteudo esquerda direita, suspeitoAcusado => do
    let e ← contarPosOrdem t esquerda suspeitoAcusado
    let d ← contarPosOrdem t direita suspeitoAcusado
    let r ← verificarRaiz t conteudo suspeitoAcusado
    pure (e + d + r)

/-- A content resolves to the accused: the lookup reports found and the
suspect it yields is exactly the accused name. -/
def resolvePara (t : TabelaHash) (suspeitoAcusado conteudo : CStr) : Bool :=
  match encontrarSuspeito t conteudo [] with
  | some (achou, nome) => achou ≠ 0 && nome = suspeitoAcusado
  | none => false

/-- Every bucket access made while resolving the contents of `raiz` is inside
the table. -/
def acessosValidos (raiz : PistaNode) : Bool :=
  (exibirPistas raiz).all (fun c => (indiceValido (funcaoHash c)).isSome)

/-! ## The mansion map -/

/-- The type `struct Sala *`: `nulo` is `NULL`. -/
inductive Sala where
  | nulo : Sala
  | no (nome pista suspeitoPista : CStr) (esquerda direita : Sala) : Sala
  deriving DecidableEq, Repr

/-- The field `pista` of a room. -/
def Sala.pistaDe : Sala → CStr
  | .nulo => []
  | .no _ pista _ _ _ => pista

/-- The field `suspeitoPista` of a room. -/
def Sala.suspeitoDe : Sala → CStr
  | .nulo => []
  | .no _ _ suspeitoPista _ _ => suspeitoPista

/-- The field `nome` of a room. -/
def Sala.nomeDe : Sala → CStr
  | .nulo => []
  | .no nome _ _ _ _ => nome

/-- The assignment `sala->esquerda = filho`. -/
def Sala.ligarEsquerda : Sala → Sala → Sala
  | .nulo, _ => .nulo
  | .no nome pista suspeitoPista _ direita, filho => .no nome pista suspeitoPista filho direita

/-- The assignment `sala->direita = filho`. -/
def Sala.ligarDireita : Sala → Sala → Sala
  | .nulo, _ => .nulo
  | .no nome pista suspeitoPista esquerda _, filho => .no nome pista suspeitoPista esquerda filho

/-- The function `struct Sala* criarSala(const char *nomeSala, const char *pistaConteudo, const char *suspeito)`. -/
def criarSala (nomeSala pistaConteudo suspeito : CStr) : Sala :=
  .no (strncpy nomeSala 39) (strncpy pistaConteudo 79) (strncpy suspeito 39) .nulo .nulo

/-- Modelled from the spec: the third argument of the call
`criarSala("Jardim", "")`, which the source leaves out. The spec gives the
Garden no clue and a suspect only to a room that has a clue, so the room gets
the empty suspect name. -/
def suspeitoJardim : CStr := []

/-- The function `struct Sala* montarMapaEHash()`: the root of the map and the table it
leaves in `tabelaHash`. The rooms are linked by pointer assignments in the
source; here the children are linked before their parents so that the value
returned is the final tree. -/
def montarMapaEHash : Option (Sala × TabelaHash) := do
  let t := tabelaVazia
  let hall := criarSala (bytes "Hall de Entrada")
    (bytes "Encontrado um ticket de onibus na lareira.") (bytes "Empregado")
  let t ← inserirNaHash t hall.pistaDe hall.suspeitoDe
  let salaEstar := criarSala (bytes "Sala de Estar")
    (bytes "A maça mordida tinha batom vermelho.") (bytes "Senhora")
  let t ← inserirNaHash t salaEstar.pistaDe salaEstar.suspeitoDe
  let cozinha := criarSala (bytes "Cozinha")
    (bytes "A faca sumiu, mas o chef nao se lembra.") (bytes "Chef")
  let t ← inserirNaHash t cozinha.pistaDe cozinha.suspeitoDe
  let biblioteca := criarSala (bytes "Biblioteca")
    (bytes "Uma pagina de diario com data rasgada.") (bytes "Senhora")
  let t ← inserirNaHash t biblioteca.pistaDe biblioteca.suspeitoDe
  let jardim := criarSala (bytes "Jardim") (bytes "") suspeitoJardim
  let despensa := criarSala (bytes "Despensa")
    (bytes "O cofre estava aberto e vazio.") (bytes "Empregado")
  let t ← inserirNaHash t despensa.pistaDe despensa.suspeitoDe
  let salaJantar := criarSala (bytes "Sala de Jantar")
    (bytes "Havia um forte cheiro de cigarro barato.") (bytes "Mordomo")
  let t ← inserirNaHash t salaJantar.pistaDe salaJantar.suspeitoDe
  let escritorio := criarSala (bytes "Escritorio (Folha)")
    (bytes "Uma luva de seda preta no chao.") (bytes "Mordomo")
  let t ← inserirNaHash t escritorio.pistaDe escritorio.suspeitoDe
  let biblioteca := biblioteca.ligarEsquerda escritorio
  let salaEstar := (salaEstar.ligarEsquerda biblioteca).ligarDireita jardim
  let cozinha := (cozinha.ligarEsquerda despensa).ligarDireita salaJantar
  let hall := (hall.ligarEsquerda salaEstar).ligarDireita cozinha
  pure (hall, t)

/-! ## Input and output -/

/-- One message printed by the program. -/
inductive Evento where
  | voceEstaEm (nome : CStr)
  | pistaEncontrada (conteudo : CStr)
  | apontaPara (suspeito : CStr)
  | suspeitoNaoEncontrado
  | semNovasPistas
  | encerrando
  | caminhoEsquerdoFinalizado
  | caminhoDireitoFinalizado
  | opcaoInvalida
  | erroFatal
  | dossie (pistas : List CStr)
  | nenhumaPistaColetada
  | acusacaoImpossivel
  | erroDeLeitura
  | verificando (acusado : CStr)
  | resultado (acusado : CStr) (pistasIncriminadoras : Int)
  | sucesso (acusado : CStr)
  | fracasso (acusado : CStr)
  deriving DecidableEq, Repr

/-- The reading loop of `fgets`: at most `n` bytes, stopping after a newline;
the bytes read and the bytes left in the stream. -/
def fgetsLoop : Nat → List Nat → List Nat × List Nat
  | 0, resto => ([], resto)
  | _ + 1, [] => ([], [])
  | n + 1, c :: resto =>
    if c = 10 then ([c], resto)
    else ((fgetsLoop n resto).1.cons c, (fgetsLoop n resto).2)

/-- The library function `fgets(buf, tamanho, stdin)`: `none` is the `NULL`
returned at end of input, else the bytes stored and the bytes left. -/
def fgets (tamanho : Nat) (entrada : List Nat) : Option (List Nat × List Nat) :=
  match entrada with
  | [] => none
  | _ :: _ => some (fgetsLoop (tamanho - 1) entrada)

/-- The string left in `buf` by `buf[strcspn(buf, "\n")] = 0`, for the bytes
`lidos` stored by `fgets`. -/
def cortarLinha (lidos : List Nat) : CStr :=
  (lidos.takeWhile (fun b => b ≠ 0)).takeWhile (fun b => b ≠ 10)

/-! ## Exploration -/

/-- Outcome of an operation: a value, an access outside `tabelaHash`, or a loop
cut short by the step bound of the embedding. -/
inductive Resultado (α : Type) where
  | ok (valor : α) : Resultado α
  | foraDaTabela : Resultado α
  | semPassos : Resultado α
  deriving DecidableEq, Repr

/-- Sequencing of outcomes. -/
def Resultado.bind {α β : Type} : Resultado α → (α → Resultado β) → Resultado β
  | .ok a, f => f a
  | .foraDaTabela, _ => .foraDaTabela
  | .semPassos, _ => .semPassos

instance : Monad Resultado where
  pure := Resultado.ok
  bind := Resultado.bind

/-- An outcome of a hash-table operation as a `Resultado`. -/
def acesso {α : Type} : Option α → Resultado α
  | some a => .ok a
  | none => .foraDaTabela

/-- A step from a room to one of its children. -/
inductive Direcao where
  | esquerda
  | direita
  deriving DecidableEq, Repr

/-- The room a pointer designates: the subtree reached from the root along the
path, `nulo` when the path leaves the tree. -/
def Sala.em : Sala → List Direcao → Sala
  | s, [] => s
  | .nulo, _ :: _ => .nulo
  | .no _ _ _ esquerda _, .esquerda :: resto => esquerda.em resto
  | .no _ _ _ _ direita, .direita :: resto => direita.em resto

/-- The assignment `sala->pista[0] = 0` on the room designated by the path. -/
def Sala.limparPista : Sala → List Direcao → Sala
  | .nulo, _ => .nulo
  | .no nome _ suspeitoPista esquerda direita, [] => .no nome [] suspeitoPista esquerda direita
  | .no nome pista suspeitoPista esquerda direita, .esquerda :: resto =>
    .no nome pista suspeitoPista (esquerda.limparPista resto) direita
  | .no nome pista suspeitoPista esquerda direita, .direita :: resto =>
    .no nome pista suspeitoPista esquerda (direita.limparPista resto)

/-- The state of `explorarSalas`: the map, `salaAtual`, `*pistasRaiz`, the
input still unread and the messages printed so far. -/
structure Exploracao where
  mapa : Sala
  salaAtual : List Direcao
  pistasRaiz : PistaNode
  entrada : List Nat
  saida : List Evento
  deriving DecidableEq, Repr

/-- The first half of the loop body of `explorarSalas`: announce the room and
collect its clue. -/
def visitar (t : TabelaHash) (st : Exploracao) : Resultado Exploracao :=
  match st.mapa.em st.salaAtual with
  | .nulo => .ok st
  | .no nome pista _ _ _ =>
    let saida := st.saida ++ [Evento.voceEstaEm nome]
    if pista.length > 0 then
      let saida := saida ++ [Evento.pistaEncontrada pista]
      let pistasRaiz := inserirPista st.pistasRaiz pista
      match encontrarSuspeito t pista [] with
      | none => .foraDaTabela
      | some (achou, suspeitoRelacionado) =>
        let saida := saida ++
          [if achou ≠ 0 then Evento.apontaPara suspeitoRelacionado
           else Evento.suspeitoNaoEncontrado]
        .ok ⟨st.mapa.limparPista st.salaAtual, st.salaAtual, pistasRaiz, st.entrada, saida⟩
    else
      .ok ⟨st.mapa, st.salaAtual, st.pistasRaiz, st.entrada, saida ++ [Evento.semNovasPistas]⟩

/-- The second half of the loop body of `explorarSalas`: read a command and
act on it. The flag is `false` when the loop is left by `break`. -/
def decidir (st : Exploracao) : Exploracao × Bool :=
  match fgets 5 st.entrada with
  | none => (st, false)
  | some (lidos, resto) =>
    let escolha := cortarLinha lidos
    if strcmp escolha (bytes "s") = 0 ∨ strcmp escolha (bytes "S") = 0 then
      (⟨st.mapa, st.salaAtual, st.pistasRaiz, resto, st.saida ++ [Evento.encerrando]⟩, false)
    else if strcmp escolha (bytes "e") = 0 ∨ strcmp escolha (bytes "E") = 0 then
      let salaAtual := st.salaAtual ++ [Direcao.esquerda]
      let saida := if st.mapa.em salaAtual = .nulo
        then st.saida ++ [Evento.caminhoEsquerdoFinalizado] else st.saida
      (⟨st.mapa, salaAtual, st.pistasRaiz, resto, saida⟩, true)
    else if strcmp escolha (bytes "d") = 0 ∨ strcmp escolha (bytes "D") = 0 then
      let salaAtual := st.salaAtual ++ [Direcao.direita]
      let saida := if st.mapa.em salaAtual = .nulo
        then st.saida ++ [Evento.caminhoDireitoFinalizado] else st.saida
      (⟨st.mapa, salaAtual, st.pistasRaiz, resto, saida⟩, true)
    else
      (⟨st.mapa, st.salaAtual, st.pistasRaiz, resto, st.saida ++ [Evento.opcaoInvalida]⟩, true)

/-- One iteration of the loop body of `explorarSalas`. -/
def passo (t : TabelaHash) (st : Exploracao) : Resultado (Exploracao × Bool) :=
  match visitar t st with
  | .ok st => .ok (decidir st)
  | .foraDaTabela => .foraDaTabela
  | .semPassos => .semPassos

/-- The loop `while (salaAtual != NULL)` of `explorarSalas`, for at most
`passos` iterations. -/
def explorarLoop (t : TabelaHash) : Nat → Exploracao → Resultado Exploracao
  | 0, _ => .semPassos
  | passos + 1, st =>
    if st.mapa.em st.salaAtual = .nulo then .ok st
    else
      match passo t st with
      | .ok (st, true) => explorarLoop t passos st
      | .ok (st, false) => .ok st
      | .foraDaTabela => .foraDaTabela
      | .semPassos => .semPassos

/-- The function `void explorarSalas(struct Sala *mapaRaiz, struct PistaNode **pistasRaiz)`
on the table `t` and the input `entrada`. Every iteration that does not leave
the loop reads at least one byte, so `entrada.length + 1` iterations are
enough. -/
def explorarSalas (t : TabelaHash) (mapaRaiz : Sala) (pistasRaiz : PistaNode)
    (entrada : List Nat) : Resultado Exploracao :=
  explorarLoop t (entrada.length + 1) ⟨mapaRaiz, [], pistasRaiz, entrada, []⟩

/-! ## Judgement and the session -/

/-- The function `void verificarSuspeitoFinal(struct PistaNode *pistasRaiz)` on the table
`t`: the messages printed and the input left. -/
def verificarSuspeitoFinal (t : TabelaHash) (pistasRaiz : PistaNode)
    (entrada : List Nat) : Resultado (List Evento × List Nat) :=
  match fgets 40 entrada with
  | none => .ok ([Evento.erroDeLeitura], entrada)
  | some (lidos, resto) =>
    let suspeitoAcusado := cortarLinha lidos
    match contarPistasPorSuspeito t pistasRaiz suspeitoAcusado with
    | none => .foraDaTabela
    | some pistasIncriminadoras =>
      let saida := [Evento.verificando suspeitoAcusado,
        Evento.resultado suspeitoAcusado pistasIncriminadoras]
      if pistasIncriminadoras ≥ MIN_PISTAS then
        .ok (saida ++ [Evento.sucesso suspeitoAcusado], resto)
      else
        .ok (saida ++ [Evento.fracasso suspeitoAcusado], resto)

/-- The function `int main()` on the input `entrada`: the messages printed and the exit
status. The releases of memory at the end have no effect on either. -/
def main (entrada : List Nat) : Resultado (List Evento × Int) :=
  match montarMapaEHash with
  | none => .foraDaTabela
  | some (mapaRaiz, t) =>
    if mapaRaiz = .nulo then .ok ([Evento.erroFatal], 1)
    else
      match explorarSalas t mapaRaiz .nulo entrada with
      | .foraDaTabela => .foraDaTabela
      | .semPassos => .semPassos
      | .ok st =>
        let saida := st.saida ++
          [if st.pistasRaiz ≠ .nulo then Evento.dossie (exibirPistas st.pistasRaiz)
           else Evento.nenhumaPistaColetada]
        if st.pistasRaiz ≠ .nulo then
          match verificarSuspeitoFinal t st.pistasRaiz st.entrada with
          | .ok (julgamento, _) => .ok (saida ++ julgamento, 0)
          | .foraDaTabela => .foraDaTabela
          | .semPassos => .semPassos
        else
          .ok (saida ++ [Evento.acusacaoImpossivel], 0)

/-! ## Notions used in the statements -/

/-- The table after a sequence of `inserirNaHash(pista, suspeito)` calls, first
to last; `none` when one of them falls outside the table. -/
def inserirVarias (t : TabelaHash) : List (CStr × CStr) → Option TabelaHash
  | [] => some t
  | (pista, suspeito) :: resto =>
    match inserirNaHash t pista suspeito with
    | none => none
    | some t => inserirVarias t resto

/-- Non-strict search-tree ordering of a ledger under `strcmp`. -/
def Ordenada : PistaNode → Prop
  | .nulo => True
  | .no conteudo esquerda direita =>
    (∀ y ∈ exibirPistas esquerda, strcmp y conteudo ≤ 0) ∧
    (∀ y ∈ exibirPistas direita, strcmp conteudo y ≤ 0) ∧
    Ordenada esquerda ∧ Ordenada direita

/-- Strict search-tree ordering of a ledger under `strcmp`. -/
def OrdenadaEstrita : PistaNode → Prop
  | .nulo => True
  | .no conteudo esquerda direita =>
    (∀ y ∈ exibirPistas esquerda, strcmp y conteudo < 0) ∧
    (∀ y ∈ exibirPistas direita, strcmp conteudo y < 0) ∧
    OrdenadaEstrita esquerda ∧ OrdenadaEstrita direita

/-- The rooms announced by `VOCE ESTA EM`, in order. -/
def salasVisitadas : List Evento → List CStr
  | [] => []
  | .voceEstaEm nome :: resto => nome :: salasVisitadas resto
  | _ :: resto => salasVisitadas resto

/-- The clues announced by `PISTA ENCONTRADA`, in order. -/
def pistasColetadas : List Evento → List CStr
  | [] => []
  | .pistaEncontrada conteudo :: resto => conteudo :: pistasColetadas resto
  | _ :: resto => pistasColetadas resto

/-- What a session shows for the commands `entrada` of the exploration and an
accused name: the rooms visited, the clues collected, the in-order contents of
the ledger left by `explorarSalas`, and the tally of `contarPistasPorSuspeito`
on that ledger. -/
def observar (entrada : List Nat) (acusado : CStr) :
    Option (List CStr × List CStr × List CStr × Option Int) :=
  match montarMapaEHash with
  | none => none
  | some (mapaRaiz, t) =>
    match explorarSalas t mapaRaiz .nulo entrada with
    | .ok st =>
      some (salasVisitadas st.saida, pistasColetadas st.saida, exibirPistas st.pistasRaiz,
        contarPistasPorSuspeito t st.pistasRaiz acusado)
    | .foraDaTabela => none
    | .semPassos => none

/-- The map returned by `montarMapaEHash`. -/
def mapaConstruido : Sala :=
  match montarMapaEHash with
  | some (mapaRaiz, _) => mapaRaiz
  | none => .nulo

/-- The table left in `tabelaHash` by `montarMapaEHash`. -/
def tabelaConstruida : TabelaHash :=
  match montarMapaEHash with
  | some (_, t) => t
  | none => tabelaVazia

/-- Every room of a map, parents before children. -/
def Sala.todas : Sala → List Sala
  | .nulo => []
  | .no nome pista suspeitoPista esquerda direita =>
    .no nome pista suspeitoPista esquerda direita :: (esquerda.todas ++ direita.todas)

/-- A map with every clue emptied: what is left are the names, the suspects
and the child links of its rooms. -/
def Sala.semPistas : Sala → Sala
  | .nulo => .nulo
  | .no nome _ suspeitoPista esquerda direita =>
    .no nome [] suspeitoPista esquerda.semPistas direita.semPistas

/-- The rooms strictly above the end of a path, from the root down. -/
def Sala.salasAcima : Sala → List Direcao → List Sala
  | _, [] => []
  | .nulo, _ :: _ => []
  | .no nome pista suspeitoPista esquerda direita, .esquerda :: resto =>
    .no nome pista suspeitoPista esquerda direita :: esquerda.salasAcima resto
  | .no nome pista suspeitoPista esquerda direita, .direita :: resto =>
    .no nome pista suspeitoPista esquerda direita :: direita.salasAcima resto

/-- The rooms met along a path, from the root down to the room at its end
(left out when the path leaves the tree). -/
def Sala.salasNoCaminho (mapa : Sala) (caminho : List Direcao) : List Sala :=
  mapa.salasAcima caminho ++
    (if mapa.em caminho = .nulo then [] else [mapa.em caminho])

/-- The non-empty clues of a list of rooms, in order. -/
def pistasDasSalas (salas : List Sala) : List CStr :=
  (salas.map Sala.pistaDe).filter (fun c => c ≠ [])

/-- The list `visitas` runs through the list `nomes` in order, staying one or
more times on each of its elements. -/
inductive Repete : List CStr → List CStr → Prop where
  | nil : Repete [] []
  | novo (nome : CStr) {nomes visitas : List CStr} :
      Repete nomes visitas → Repete (nomes ++ [nome]) (visitas ++ [nome])
  | outra (nome : CStr) {nomes visitas : List CStr} :
      Repete (nomes ++ [nome]) visitas → Repete (nomes ++ [nome]) (visitas ++ [nome])

/-- An observation made on the value of an outcome. -/
def Resultado.map {α β : Type} (f : α → β) : Resultado α → Resultado β
  | .ok a => .ok (f a)
  | .foraDaTabela => .foraDaTabela
  | .semPassos => .semPassos

/-- A map with the clue cleared in every room strictly above the end of a
path. -/
def Sala.limparPrefixos : Sala → List Direcao → Sala
  | s, [] => s
  | .nulo, _ :: _ => .nulo
  | .no nome _ suspeitoPista esquerda direita, .esquerda :: resto =>
    .no nome [] suspeitoPista (esquerda.limparPrefixos resto) direita
  | .no nome _ suspeitoPista esquerda direita, .direita :: resto =>
    .no nome [] suspeitoPista esquerda (direita.limparPrefixos resto)

/-- What an exploration that started on the map `inicial` with an empty
ledger has done once the rooms `salas` have been visited: their clues are in
the ledger and in the messages in the order of the visits, and the rooms
announced are these rooms, each one or more times. -/
def Percorreu (salas : List Sala) (st : Exploracao) : Prop :=
  st.pistasRaiz = inserirTodas .nulo (pistasDasSalas salas) ∧
    Repete (salas.map Sala.nomeDe) (salasVisitadas st.saida) ∧
    pistasColetadas st.saida = pistasDasSalas salas

/-- Loop invariant of `explorarSalas` on arrival in a room: the rooms above
have been visited and their clues cleared. -/
def InvChegada (inicial : Sala) (st : Exploracao) : Prop :=
  st.mapa = inicial.limparPrefixos st.salaAtual ∧
    Percorreu (inicial.salasAcima st.salaAtual) st

/-- Loop invariant of `explorarSalas` once the current room has been visited. -/
def InvVisitada (inicial : Sala) (st : Exploracao) : Prop :=
  st.mapa = (inicial.limparPrefixos st.salaAtual).limparPista st.salaAtual ∧
    Percorreu (inicial.salasNoCaminho st.salaAtual) st

/-- Every clue of a map fits the buffers and hashes inside the table. -/
def PistasRegulares (mapa : Sala) : Prop :=
  ∀ q, ((mapa.em q).pistaDe).length < 80 ∧
    (indiceValido (funcaoHash ((mapa.em q).pistaDe))).isSome = true

set_option maxRecDepth 100000

/-! ## `strcmp` -/

theorem strcmp_self (a : CStr) : strcmp a a = 0 := by
  induction a with
  | nil => rfl
  | cons x xs ih => simp [strcmp, ih]

theorem strcmp_eq_zero {a b : CStr} (h : strcmp a b = 0) : a = b := by
  induction a generalizing b with
  | nil => cases b with
    | nil => rfl
    | cons y ys => simp [strcmp] at h
  | cons x xs ih => cases b with
    | nil => simp [strcmp] at h
    | cons y ys =>
      simp only [strcmp] at h
      by_cases h1 : x < y
      · simp [h1] at h
      · by_cases h2 : y < x
        · simp [h1, h2] at h
        · simp only [h1, h2, if_false] at h
          have hxy : x = y := by omega
          rw [hxy, ih h]

theorem strcmp_eq_zero_iff (a b : CStr) : strcmp a b = 0 ↔ a = b :=
  ⟨strcmp_eq_zero, fun h => h ▸ strcmp_self a⟩

theorem strcmp_swap (a b : CStr) : strcmp b a = - strcmp a b := by
  induction a generalizing b with
  | nil => cases b <;> simp [strcmp]
  | cons x xs ih => cases b with
    | nil => simp [strcmp]
    | cons y ys =>
      simp only [strcmp]
      split_ifs <;> first | omega | exact ih ys

theorem strcmp_range (a b : CStr) : strcmp a b = -1 ∨ strcmp a b = 0 ∨ strcmp a b = 1 := by
  induction a generalizing b with
  | nil => cases b <;> simp [strcmp]
  | cons x xs ih => cases b with
    | nil => simp [strcmp]
    | cons y ys =>
      simp only [strcmp]
      split_ifs <;> first | omega | exact ih ys

theorem strcmp_le_trans {a b c : CStr} (h1 : strcmp a b ≤ 0) (h2 : strcmp b c ≤ 0) :
    strcmp a c ≤ 0 := by
  induction a generalizing b c with
  | nil => cases c <;> simp [strcmp]
  | cons x xs ih => cases b with
    | nil => simp [strcmp] at h1
    | cons y ys => cases c with
      | nil => simp [strcmp] at h2
      | cons z zs =>
        simp only [strcmp] at h1 h2 ⊢
        split_ifs at h1 h2 ⊢ <;> first | omega | exact ih h1 h2

theorem strcmp_lt_of_le_of_lt {a b c : CStr} (h1 : strcmp a b ≤ 0) (h2 : strcmp b c < 0) :
    strcmp a c < 0 := by
  have h := strcmp_le_trans h1 (le_of_lt h2)
  rcases lt_or_eq_of_le h with h3 | h3
  · exact h3
  · have hac := strcmp_eq_zero h3
    subst hac
    have := strcmp_swap a b
    omega

theorem strcmp_lt_of_lt_of_le {a b c : CStr} (h1 : strcmp a b < 0) (h2 : strcmp b c ≤ 0) :
    strcmp a c < 0 := by
  have h := strcmp_le_trans (le_of_lt h1) h2
  rcases lt_or_eq_of_le h with h3 | h3
  · exact h3
  · have hac := strcmp_eq_zero h3
    subst hac
    have := strcmp_swap a b
    omega

/-- A truncated copy never compares above the original. -/
theorem strcmp_take_le (c : CStr) (n : Nat) : strcmp (c.take n) c ≤ 0 := by
  induction c generalizing n with
  | nil => simp [strcmp]
  | cons x xs ih => cases n with
    | zero => simp [strcmp]
    | succ n => simp [strcmp, ih]

/-- A text that fits in `n` bytes and compares below `c` does not compare above
the copy of `c` truncated to `n` bytes. -/
theorem strcmp_le_take {x c : CStr} {n : Nat} (hx : x.length ≤ n) (h : strcmp x c < 0) :
    strcmp x (c.take n) ≤ 0 := by
  induction x generalizing c n with
  | nil => cases c.take n <;> simp [strcmp]
  | cons a as ih => cases c with
    | nil => simp [strcmp] at h
    | cons b bs => cases n with
      | zero => simp at hx
      | succ n =>
        simp only [List.length_cons, Nat.add_le_add_iff_right] at hx
        simp only [strcmp, List.take_succ_cons] at h ⊢
        split_ifs at h ⊢ <;> first | omega | exact ih hx h

/-! ## The clue ledger -/

theorem strncpy_of_length_le {c : CStr} {n : Nat} (h : c.length ≤ n) : strncpy c n = c := by
  simp [strncpy, List.take_of_length_le h]

theorem strncpy_length_le (c : CStr) (n : Nat) : (strncpy c n).length ≤ n := by
  simp [strncpy]

theorem inserirPista_no (conteudo : CStr) (esquerda direita : PistaNode) (c : CStr) :
    inserirPista (.no conteudo esquerda direita) c =
      if strcmp c conteudo < 0 then .no conteudo (inserirPista esquerda c) direita
      else if strcmp c conteudo > 0 then .no conteudo esquerda (inserirPista direita c)
      else .no conteudo esquerda direita := by
  simp [inserirPista]

theorem mem_exibirPistas_inserirPista {t : PistaNode} {c y : CStr}
    (h : y ∈ exibirPistas (inserirPista t c)) :
    y ∈ exibirPistas t ∨ y = strncpy c 79 := by
  induction t with
  | nulo =>
    simp [inserirPista, criarPistaNode, exibirPistas] at h
    exact Or.inr h
  | no x l r ihl ihr =>
    rw [inserirPista_no] at h
    split_ifs at h
    · simp only [exibirPistas, List.mem_append, List.mem_cons] at h ⊢
      rcases h with h | h | h
      · rcases ihl h with h | h
        · exact Or.inl (Or.inl h)
        · exact Or.inr h
      · exact Or.inl (Or.inr (Or.inl h))
      · exact Or.inl (Or.inr (Or.inr h))
    · simp only [exibirPistas, List.mem_append, List.mem_cons] at h ⊢
      rcases h with h | h | h
      · exact Or.inl (Or.inl h)
      · exact Or.inl (Or.inr (Or.inl h))
      · rcases ihr h with h | h
        · exact Or.inl (Or.inr (Or.inr h))
        · exact Or.inr h
    · exact Or.inl h

/-- Inserting again a text that fits the node buffer changes nothing. -/
theorem inserirPista_idem (t : PistaNode) {c : CStr} (hc : c.length < 80) :
    inserirPista (inserirPista t c) c = inserirPista t c := by
  have hcopy : strncpy c 79 = c := strncpy_of_length_le (by omega)
  induction t with
  | nulo =>
    simp [inserirPista, criarPistaNode, hcopy, strcmp_self]
  | no x l r ihl ihr =>
    rw [inserirPista_no]
    split_ifs with h1 h2
    · rw [inserirPista_no, if_pos h1, ihl]
    · rw [inserirPista_no, if_neg h1, if_pos h2, ihr]
    · rw [inserirPista_no, if_neg h1, if_neg h2]

/-- Every stored content fits the 79 bytes of a node buffer. -/
theorem cabem_inserirPista {t : PistaNode} {c : CStr}
    (h : ∀ y ∈ exibirPistas t, y.length ≤ 79) :
    ∀ y ∈ exibirPistas (inserirPista t c), y.length ≤ 79 := by
  intro y hy
  rcases mem_exibirPistas_inserirPista hy with hy | hy
  · exact h y hy
  · rw [hy]; exact strncpy_length_le c 79

theorem ordenada_inserirPista {t : PistaNode} {c : CStr}
    (hlen : ∀ y ∈ exibirPistas t, y.length ≤ 79) (h : Ordenada t) :
    Ordenada (inserirPista t c) := by
  induction t with
  | nulo => simp [inserirPista, criarPistaNode, Ordenada, exibirPistas]
  | no x l r ihl ihr =>
    obtain ⟨hl, hr, hol, hor⟩ := h
    have hxlen : x.length ≤ 79 := hlen x (by simp [exibirPistas])
    have hllen : ∀ y ∈ exibirPistas l, y.length ≤ 79 :=
      fun y hy => hlen y (by simp [exibirPistas, hy])
    have hrlen : ∀ y ∈ exibirPistas r, y.length ≤ 79 :=
      fun y hy => hlen y (by simp [exibirPistas, hy])
    rw [inserirPista_no]
    split_ifs with h1 h2
    · refine ⟨?_, hr, ihl hllen hol, hor⟩
      intro y hy
      rcases mem_exibirPistas_inserirPista hy with hy | hy
      · exact hl y hy
      · rw [hy]
        exact le_of_lt (strcmp_lt_of_le_of_lt (strcmp_take_le c 79) h1)
    · refine ⟨hl, ?_, hol, ihr hrlen hor⟩
      intro y hy
      rcases mem_exibirPistas_inserirPista hy with hy | hy
      · exact hr y hy
      · rw [hy]
        have hxc : strcmp x c < 0 := by
          have := strcmp_swap c x
          omega
        exact strcmp_le_take hxlen hxc
    · exact ⟨hl, hr, hol, hor⟩

theorem ordenadaEstrita_inserirPista {t : PistaNode} {c : CStr} (hc : c.length < 80)
    (h : OrdenadaEstrita t) : OrdenadaEstrita (inserirPista t c) := by
  have hcopy : strncpy c 79 = c := strncpy_of_length_le (by omega)
  induction t with
  | nulo => simp [inserirPista, criarPistaNode, OrdenadaEstrita, exibirPistas]
  | no x l r ihl ihr =>
    obtain ⟨hl, hr, hol, hor⟩ := h
    rw [inserirPista_no]
    split_ifs with h1 h2
    · refine ⟨?_, hr, ihl hol, hor⟩
      intro y hy
      rcases mem_exibirPistas_inserirPista hy with hy | hy
      · exact hl y hy
      · rw [hy, hcopy]; exact h1
    · refine ⟨hl, ?_, hol, ihr hor⟩
      intro y hy
      rcases mem_exibirPistas_inserirPista hy with hy | hy
      · exact hr y hy
      · rw [hy, hcopy]
        have := strcmp_swap c x
        omega
    · exact ⟨hl, hr, hol, hor⟩

theorem pairwise_of_ordenada {t : PistaNode} (h : Ordenada t) :
    (exibirPistas t).Pairwise (fun a b => strcmp a b ≤ 0) := by
  induction t with
  | nulo => simp [exibirPistas]
  | no x l r ihl ihr =>
    obtain ⟨hl, hr, hol, hor⟩ := h
    simp only [exibirPistas, List.pairwise_append, List.pairwise_cons, List.mem_cons]
    refine ⟨ihl hol, ⟨hr, ihr hor⟩, ?_⟩
    intro a ha b hb
    rcases hb with hb | hb
    · rw [hb]; exact hl a ha
    · exact strcmp_le_trans (hl a ha) (hr b hb)

theorem pairwise_of_ordenadaEstrita {t : PistaNode} (h : OrdenadaEstrita t) :
    (exibirPistas t).Pairwise (fun a b => strcmp a b < 0) := by
  induction t with
  | nulo => simp [exibirPistas]
  | no x l r ihl ihr =>
    obtain ⟨hl, hr, hol, hor⟩ := h
    simp only [exibirPistas, List.pairwise_append, List.pairwise_cons, List.mem_cons]
    refine ⟨ihl hol, ⟨hr, ihr hor⟩, ?_⟩
    intro a ha b hb
    rcases hb with hb | hb
    · rw [hb]; exact hl a ha
    · exact strcmp_lt_of_lt_of_le (hl a ha) (le_of_lt (hr b hb))

theorem nodup_of_ordenadaEstrita {t : PistaNode} (h : OrdenadaEstrita t) :
    (exibirPistas t).Nodup := by
  refine (pairwise_of_ordenadaEstrita h).imp ?_
  intro a b hab heq
  rw [heq, strcmp_self] at hab
  exact absurd hab (by decide)

theorem inserirTodas_invariante (t : PistaNode) (cs : List CStr)
    (hlen : ∀ y ∈ exibirPistas t, y.length ≤ 79) (h : Ordenada t) :
    (∀ y ∈ exibirPistas (inserirTodas t cs), y.length ≤ 79) ∧ Ordenada (inserirTodas t cs) := by
  induction cs generalizing t with
  | nil => exact ⟨hlen, h⟩
  | cons c cs ih =>
    exact ih (inserirPista t c) (cabem_inserirPista hlen) (ordenada_inserirPista hlen h)

theorem inserirTodas_estrita (t : PistaNode) (cs : List CStr)
    (hcs : ∀ x ∈ cs, x.length < 80) (h : OrdenadaEstrita t) :
    OrdenadaEstrita (inserirTodas t cs) := by
  induction cs generalizing t with
  | nil => exact h
  | cons c cs ih =>
    exact ih (inserirPista t c) (fun x hx => hcs x (List.mem_cons_of_mem c hx))
      (ordenadaEstrita_inserirPista (hcs c (List.mem_cons_self c cs)) h)

/-- C1, as stated, fails: an 80-byte text inserted twice into the empty ledger
leaves two nodes, both holding the same 79-byte content. -/
theorem C1_texto_longo_duplica :
    ¬ ((inserirPista (inserirPista .nulo (List.replicate 80 97)) (List.replicate 80 97)).tamanho
          = (inserirPista .nulo (List.replicate 80 97)).tamanho ∧
        exibirPistas (inserirPista (inserirPista .nulo (List.replicate 80 97))
            (List.replicate 80 97))
          = exibirPistas (inserirPista .nulo (List.replicate 80 97))) ∧
      exibirPistas (inserirPista (inserirPista .nulo (List.replicate 80 97))
          (List.replicate 80 97))
        = [List.replicate 79 97, List.replicate 79 97] := by
  decide

/-- C1, amended: for every ledger built by a sequence of `inserirPista` calls
and every clue text shorter than 80 bytes, inserting the text a second time
returns the same tree, so the number of nodes and the in-order enumeration are
unchanged; and when every inserted text is shorter than 80 bytes no two entries
of the ledger hold the same content. -/
theorem C1_segunda_insercao_sem_efeito (cs : List CStr) (c : CStr) (hc : c.length < 80) :
    inserirPista (inserirPista (inserirTodas .nulo cs) c) c
        = inserirPista (inserirTodas .nulo cs) c ∧
      (inserirPista (inserirPista (inserirTodas .nulo cs) c) c).tamanho
        = (inserirPista (inserirTodas .nulo cs) c).tamanho ∧
      exibirPistas (inserirPista (inserirPista (inserirTodas .nulo cs) c) c)
        = exibirPistas (inserirPista (inserirTodas .nulo cs) c) ∧
      ((∀ x ∈ cs, x.length < 80) →
        (exibirPistas (inserirPista (inserirTodas .nulo cs) c)).Nodup) := by
  have h := inserirPista_idem (inserirTodas .nulo cs) hc
  refine ⟨h, by rw [h], by rw [h], ?_⟩
  intro hcs
  exact nodup_of_ordenadaEstrita
    (ordenadaEstrita_inserirPista hc (inserirTodas_estrita .nulo cs hcs trivial))

theorem C1_segunda_insercao_sem_efeito_witness :
    ([99] : CStr).length < 80 ∧
      inserirPista (inserirPista (inserirTodas .nulo [[98], [97]]) [99]) [99]
        = inserirPista (inserirTodas .nulo [[98], [97]]) [99] ∧
      (inserirPista (inserirPista (inserirTodas .nulo [[98], [97]]) [99]) [99]).tamanho
        = (inserirPista (inserirTodas .nulo [[98], [97]]) [99]).tamanho ∧
      exibirPistas (inserirPista (inserirPista (inserirTodas .nulo [[98], [97]]) [99]) [99])
        = exibirPistas (inserirPista (inserirTodas .nulo [[98], [97]]) [99]) ∧
      ((∀ x ∈ [[98], [97]], x.length < 80) →
        (exibirPistas (inserirPista (inserirTodas .nulo [[98], [97]]) [99])).Nodup) :=
  ⟨by decide, C1_segunda_insercao_sem_efeito [[98], [97]] [99] (by decide)⟩

/-- C2: for every finite sequence of clue texts inserted with `inserirPista`
from the empty ledger, the in-order traversal of `exibirPistas` lists the
stored contents in non-decreasing `strcmp` order. -/
theorem C2_exibirPistas_ordenada (cs : List CStr) :
    (exibirPistas (inserirTodas .nulo cs)).Pairwise (fun a b => strcmp a b ≤ 0) :=
  pairwise_of_ordenada
    (inserirTodas_invariante .nulo cs (by simp [exibirPistas]) trivial).2

/-! ## The hash function -/

theorem wrapInt_add_left (a b : Int) : wrapInt (wrapInt a + b) = wrapInt (a + b) := by
  unfold wrapInt
  omega

theorem wrapInt_of_range {v : Int} (h0 : -2147483648 ≤ v) (h1 : v < 2147483648) :
    wrapInt v = v := by
  unfold wrapInt
  omega

theorem funcaoHashLoop_wrapInt (s : CStr) (v : Int) :
    funcaoHashLoop (wrapInt v) s = wrapInt (v + (s.map charParaInt).sum) := by
  induction s generalizing v with
  | nil => simp [funcaoHashLoop]
  | cons c r ih =>
    simp only [funcaoHashLoop, List.map_cons, List.sum_cons]
    rw [wrapInt_add_left, ih, add_assoc]

/-- The loop of `funcaoHash` in closed form: the sum of the `char` values,
wrapped to 32 bits, then the truncating remainder. -/
theorem funcaoHash_eq (s : CStr) :
    funcaoHash s = Int.tmod (wrapInt ((s.map charParaInt).sum)) 10 := by
  have h := funcaoHashLoop_wrapInt s 0
  have h0 : wrapInt 0 = 0 := by decide
  rw [h0, zero_add] at h
  simp [funcaoHash, h]

theorem funcaoHash_nil : funcaoHash [] = 0 := by decide

/-- The bucket depends only on the multiset of the bytes of the key. -/
theorem funcaoHash_perm {s s' : CStr} (h : s.Perm s') : funcaoHash s = funcaoHash s' := by
  rw [funcaoHash_eq, funcaoHash_eq, (h.map charParaInt).sum_eq]

theorem funcaoHash_lt (s : CStr) : funcaoHash s < 10 :=
  Int.tmod_lt_of_pos _ (by decide)

theorem soma_ascii (s : CStr) (h : ∀ b ∈ s, b < 128) :
    (s.map charParaInt).sum = (s.sum : Nat) ∧ s.sum ≤ 127 * s.length := by
  induction s with
  | nil => simp
  | cons c r ih =>
    have hc : c < 128 := h c (List.mem_cons_self c r)
    obtain ⟨h1, h2⟩ := ih (fun b hb => h b (List.mem_cons_of_mem c hb))
    simp only [List.map_cons, List.sum_cons, List.length_cons, h1, charParaInt, hc, if_true]
    constructor
    · push_cast; rfl
    · omega

/-- On ASCII keys shorter than 2^24 bytes the bucket is the sum of the codes
modulo 10, a valid index. -/
theorem funcaoHash_ascii (s : CStr) (h : ∀ b ∈ s, b < 128) (hlen : s.length < 16777216) :
    funcaoHash s = ((s.sum % 10 : Nat) : Int) := by
  obtain ⟨h1, h2⟩ := soma_ascii s h
  rw [funcaoHash_eq, h1, wrapInt_of_range (by omega) (by omega)]
  rw [Int.tmod_eq_emod (by omega) (by decide)]
  push_cast
  rfl

/-! ## The suspect index -/

theorem inserirNaHash_eq (t : TabelaHash) (k s : CStr) :
    inserirNaHash t k s = (indiceValido (funcaoHash k)).map
      (fun i => Function.update t i (HashItem.mk (strncpy k 79) (strncpy s 39) :: t i)) := by
  unfold inserirNaHash
  cases indiceValido (funcaoHash k) with
  | none => rfl
  | some i =>
    simp only [Option.map_some']
    split_ifs with h
    · rw [h]
    · rfl

theorem inserirNaHash_some {t t' : TabelaHash} {k s : CStr} (h : inserirNaHash t k s = some t') :
    ∃ i, indiceValido (funcaoHash k) = some i ∧
      t' = Function.update t i (HashItem.mk (strncpy k 79) (strncpy s 39) :: t i) := by
  rw [inserirNaHash_eq] at h
  cases hi : indiceValido (funcaoHash k) with
  | none => simp [hi] at h
  | some i =>
    simp only [hi, Option.map_some', Option.some.injEq] at h
    exact ⟨i, rfl, h.symm⟩

theorem encontrarNaLista_cons (q buf : CStr) (a : HashItem) (l : List HashItem) :
    encontrarNaLista q buf (a :: l) =
      if a.pista = q then (1, a.suspeito.take 40) else encontrarNaLista q buf l := by
  simp [encontrarNaLista, strcmp_eq_zero_iff]

theorem encontrarNaLista_ausente {q buf : CStr} {l : List HashItem}
    (h : ∀ a ∈ l, a.pista ≠ q) : encontrarNaLista q buf l = (0, buf) := by
  induction l with
  | nil => rfl
  | cons a l ih =>
    rw [encontrarNaLista_cons, if_neg (h a (List.mem_cons_self a l))]
    exact ih (fun b hb => h b (List.mem_cons_of_mem a hb))

/-- An insertion does not change what a text other than its stored key
resolves to. -/
theorem encontrarSuspeito_inserirNaHash_outro {t t' : TabelaHash} {k s q : CStr}
    (buf : CStr) (h : inserirNaHash t k s = some t') (hq : strncpy k 79 ≠ q) :
    encontrarSuspeito t' q buf = encontrarSuspeito t q buf := by
  obtain ⟨i, _, ht⟩ := inserirNaHash_some h
  unfold encontrarSuspeito
  cases indiceValido (funcaoHash q) with
  | none => rfl
  | some j =>
    by_cases hj : j = i
    · subst hj
      simp [ht, Function.update_same, encontrarNaLista_cons, hq]
    · simp [ht, Function.update_noteq hj]

/-- Right after its insertion, a key that fits the buffer resolves to the
stored copy of its suspect. -/
theorem encontrarSuspeito_inserirNaHash_mesmo {t t' : TabelaHash} {k s : CStr}
    (buf : CStr) (h : inserirNaHash t k s = some t') (hk : k.length < 80) :
    encontrarSuspeito t' k buf = some (1, strncpy s 39) := by
  obtain ⟨i, hi, ht⟩ := inserirNaHash_some h
  have hcopy : strncpy k 79 = k := strncpy_of_length_le (by omega)
  unfold encontrarSuspeito
  simp only [hi, ht, Function.update_same, encontrarNaLista_cons, hcopy, if_true]
  simp [strncpy, List.take_take]

theorem inserirVarias_cons_some {t t' : TabelaHash} {k s : CStr} {resto : List (CStr × CStr)}
    (h : inserirVarias t ((k, s) :: resto) = some t') :
    ∃ t1, inserirNaHash t k s = some t1 ∧ inserirVarias t1 resto = some t' := by
  simp only [inserirVarias] at h
  cases h1 : inserirNaHash t k s with
  | none => simp [h1] at h
  | some t1 => exact ⟨t1, rfl, by simpa [h1] using h⟩

theorem encontrarSuspeito_inserirVarias_outro {t t' : TabelaHash} {ops : List (CStr × CStr)}
    {q : CStr} (buf : CStr) (h : inserirVarias t ops = some t')
    (hq : ∀ p ∈ ops, strncpy p.1 79 ≠ q) :
    encontrarSuspeito t' q buf = encontrarSuspeito t q buf := by
  induction ops generalizing t with
  | nil =>
    simp only [inserirVarias, Option.some.injEq] at h
    rw [h]
  | cons p resto ih =>
    obtain ⟨k, s⟩ := p
    obtain ⟨t1, h1, h2⟩ := inserirVarias_cons_some h
    rw [ih h2 (fun p hp => hq p (List.mem_cons_of_mem _ hp))]
    exact encontrarSuspeito_inserirNaHash_outro buf h1 (hq (k, s) (List.mem_cons_self _ _))

/-- Entries are never removed: an entry of a chain is still in it after any
further insertions. -/
theorem mem_inserirVarias {t t' : TabelaHash} {ops : List (CStr × CStr)}
    (h : inserirVarias t ops = some t') (i : Fin TAMANHO_TABELA) (a : HashItem)
    (ha : a ∈ t i) : a ∈ t' i := by
  induction ops generalizing t with
  | nil =>
    simp only [inserirVarias, Option.some.injEq] at h
    rw [← h]; exact ha
  | cons p resto ih =>
    obtain ⟨k, s⟩ := p
    obtain ⟨t1, h1, h2⟩ := inserirVarias_cons_some h
    obtain ⟨j, _, ht⟩ := inserirNaHash_some h1
    apply ih h2
    by_cases hj : i = j
    · subst hj
      simp [ht, Function.update_same, ha]
    · simp [ht, Function.update_noteq hj, ha]

theorem encontrarSuspeito_tabelaVazia {q : CStr} (buf : CStr) (h : 0 ≤ funcaoHash q) :
    encontrarSuspeito tabelaVazia q buf = some (0, buf) := by
  have hlt := funcaoHash_lt q
  simp [encontrarSuspeito, indiceValido, h, hlt, tabelaVazia, encontrarNaLista]

/-- C3, as stated, fails: a clue text of 80 bytes registered once in the empty
table is not found afterwards (the stored key is its first 79 bytes), and a
suspect name of 40 bytes comes back as its first 39 bytes. -/
theorem C3_texto_longo_nao_resolve :
    (inserirNaHash tabelaVazia (List.replicate 80 97) [120]).bind
        (fun t => encontrarSuspeito t (List.replicate 80 97) []) = some (0, []) ∧
      (inserirNaHash tabelaVazia [97] (List.replicate 40 98)).bind
        (fun t => encontrarSuspeito t [97] []) = some (1, List.replicate 39 98) := by
  decide

/-- C3, amended: in every table, after `inserirNaHash(k, s)` for a clue text
`k` shorter than 80 bytes, followed by any insertions none of which stores `k`
as its key (the first 79 bytes of its clue text), `encontrarSuspeito(k)`
returns 1 and yields the first 39 bytes of `s`, which is `s` itself when `s` is
shorter than 40 bytes. -/
theorem C3_registrada_resolve (t0 t1 t2 : TabelaHash) (k s buffer : CStr)
    (depois : List (CStr × CStr)) (hk : k.length < 80)
    (h1 : inserirNaHash t0 k s = some t1) (h2 : inserirVarias t1 depois = some t2)
    (hd : ∀ p ∈ depois, strncpy p.1 79 ≠ k) :
    encontrarSuspeito t2 k buffer = some (1, strncpy s 39) ∧
      (s.length < 40 → encontrarSuspeito t2 k buffer = some (1, s)) := by
  have h : encontrarSuspeito t2 k buffer = some (1, strncpy s 39) := by
    rw [encontrarSuspeito_inserirVarias_outro buffer h2 hd]
    exact encontrarSuspeito_inserirNaHash_mesmo buffer h1 hk
  refine ⟨h, fun hs => ?_⟩
  rw [h, strncpy_of_length_le (by omega)]

theorem C3_registrada_resolve_witness :
    ([107] : CStr).length < 80 ∧
      inserirNaHash tabelaVazia [107] [115] =
        some (Function.update tabelaVazia 7 [HashItem.mk [107] [115]]) ∧
      inserirVarias (Function.update tabelaVazia 7 [HashItem.mk [107] [115]]) [([117], [118])] =
        some (Function.update (Function.update tabelaVazia 7 [HashItem.mk [107] [115]]) 7
          [HashItem.mk [117] [118], HashItem.mk [107] [115]]) ∧
      (∀ p ∈ [(([117], [118]) : CStr × CStr)], strncpy p.1 79 ≠ [107]) ∧
      encontrarSuspeito (Function.update (Function.update tabelaVazia 7
          [HashItem.mk [107] [115]]) 7 [HashItem.mk [117] [118], HashItem.mk [107] [115]])
        [107] [] = some (1, [115]) := by
  have h1 : inserirNaHash tabelaVazia [107] [115] =
      some (Function.update tabelaVazia 7 [HashItem.mk [107] [115]]) := rfl
  have h2 : inserirVarias (Function.update tabelaVazia 7 [HashItem.mk [107] [115]])
      [([117], [118])] =
        some (Function.update (Function.update tabelaVazia 7 [HashItem.mk [107] [115]]) 7
          [HashItem.mk [117] [118], HashItem.mk [107] [115]]) := rfl
  have hd : ∀ p ∈ [(([117], [118]) : CStr × CStr)], strncpy p.1 79 ≠ [107] := by decide
  exact ⟨by decide, h1, h2, hd,
    (C3_registrada_resolve _ _ _ [107] [115] [] _ (by decide) h1 h2 hd).1⟩

/-- C4, as stated, fails: after registering the 80-byte text `a...ad` alone, the
79-byte text `a...a`, never passed to `inserirNaHash`, is reported found; and
on the empty table the lookup of the one-byte text `0xFF` indexes the table at
-1 instead of returning not-found. -/
theorem C4_texto_nao_registrado_encontrado :
    (inserirVarias tabelaVazia [(List.replicate 79 97 ++ [100], [120])]).bind
        (fun t => encontrarSuspeito t (List.replicate 79 97) []) = some (1, [120]) ∧
      List.replicate 79 97 ≠ List.replicate 79 97 ++ [100] ∧
      funcaoHash [255] = -1 ∧
      encontrarSuspeito tabelaVazia [255] [] = none := by
  decide!

/-- C4, amended: in every table reached from the empty one by a sequence of
`inserirNaHash` calls, every text `q` that differs from the first 79 bytes of
each inserted clue text and whose bucket index `funcaoHash(q)` is not negative
is not found: `encontrarSuspeito(q)` returns 0 and leaves the buffer as it
was. In particular this holds on the empty table. -/
theorem C4_nao_registrada_nao_encontrada (ops : List (CStr × CStr)) (t : TabelaHash)
    (q buffer : CStr) (h : inserirVarias tabelaVazia ops = some t)
    (hq : ∀ p ∈ ops, strncpy p.1 79 ≠ q) (hidx : 0 ≤ funcaoHash q) :
    encontrarSuspeito t q buffer = some (0, buffer) ∧
      encontrarSuspeito tabelaVazia q buffer = some (0, buffer) := by
  have h0 := encontrarSuspeito_tabelaVazia buffer hidx
  exact ⟨by rw [encontrarSuspeito_inserirVarias_outro buffer h hq, h0], h0⟩

theorem C4_nao_registrada_nao_encontrada_witness :
    inserirVarias tabelaVazia [([107], [115])] =
        some (Function.update tabelaVazia 7 [HashItem.mk [107] [115]]) ∧
      (∀ p ∈ [(([107], [115]) : CStr × CStr)], strncpy p.1 79 ≠ [117]) ∧
      0 ≤ funcaoHash [117] ∧
      encontrarSuspeito (Function.update tabelaVazia 7 [HashItem.mk [107] [115]]) [117] [66]
        = some (0, [66]) := by
  have h1 : inserirVarias tabelaVazia [([107], [115])] =
      some (Function.update tabelaVazia 7 [HashItem.mk [107] [115]]) := rfl
  have hq : ∀ p ∈ [(([107], [115]) : CStr × CStr)], strncpy p.1 79 ≠ [117] := by decide
  exact ⟨h1, hq, by decide,
    (C4_nao_registrada_nao_encontrada _ _ [117] [66] h1 hq (by decide)).1⟩

/-- C5, as stated, fails: for a clue text of 80 bytes inserted twice, with
suspects `x` then `y`, the lookup of that text finds nothing. -/
theorem C5_texto_longo_nao_resolve :
    ((inserirNaHash tabelaVazia (List.replicate 80 97) [120]).bind
        (fun t => inserirNaHash t (List.replicate 80 97) [121])).bind
        (fun t => encontrarSuspeito t (List.replicate 80 97) []) = some (0, []) := by
  decide

/-- C5, amended: for every table, clue text `k` shorter than 80 bytes and
suspects `s1`, `s2`: after `inserirNaHash(k, s1)`, any further insertions and
then `inserirNaHash(k, s2)`, `encontrarSuspeito(k)` returns 1 and yields the
first 39 bytes of `s2`; the last insertion put its entry at the head of the
bucket chain of `k` in front of the unchanged previous chain, which still holds
the entry of `k` with the first 39 bytes of `s1`, and it left every other
bucket as it was. -/
theorem C5_ultima_insercao_prevalece (t0 t1 t2 t3 : TabelaHash) (k s1 s2 buffer : CStr)
    (meio : List (CStr × CStr)) (hk : k.length < 80)
    (h1 : inserirNaHash t0 k s1 = some t1) (h2 : inserirVarias t1 meio = some t2)
    (h3 : inserirNaHash t2 k s2 = some t3) :
    encontrarSuspeito t3 k buffer = some (1, strncpy s2 39) ∧
      ∃ i, indiceValido (funcaoHash k) = some i ∧
        t3 i = HashItem.mk k (strncpy s2 39) :: t2 i ∧
        HashItem.mk k (strncpy s1 39) ∈ t2 i ∧
        (t3 i).length = (t2 i).length + 1 ∧
        ∀ j, j ≠ i → t3 j = t2 j := by
  have hcopy : strncpy k 79 = k := strncpy_of_length_le (by omega)
  refine ⟨encontrarSuspeito_inserirNaHash_mesmo buffer h3 hk, ?_⟩
  obtain ⟨i, hi, ht3⟩ := inserirNaHash_some h3
  obtain ⟨i1, hi1, ht1⟩ := inserirNaHash_some h1
  have hii : i1 = i := by rw [hi] at hi1; exact (Option.some.inj hi1).symm
  subst hii
  have hhead : t3 i1 = HashItem.mk k (strncpy s2 39) :: t2 i1 := by
    rw [ht3, Function.update_same, hcopy]
  refine ⟨i1, hi, hhead, ?_, by rw [hhead]; simp, ?_⟩
  · apply mem_inserirVarias h2
    rw [ht1, Function.update_same, hcopy]
    exact List.mem_cons_self _ _
  · intro j hj
    rw [ht3, Function.update_noteq hj]

theorem C5_ultima_insercao_prevalece_witness :
    ([107] : CStr).length < 80 ∧
      inserirNaHash tabelaVazia [107] [115] =
        some (Function.update tabelaVazia 7 [HashItem.mk [107] [115]]) ∧
      inserirVarias (Function.update tabelaVazia 7 [HashItem.mk [107] [115]]) [] =
        some (Function.update tabelaVazia 7 [HashItem.mk [107] [115]]) ∧
      inserirNaHash (Function.update tabelaVazia 7 [HashItem.mk [107] [115]]) [107] [116] =
        some (Function.update (Function.update tabelaVazia 7 [HashItem.mk [107] [115]]) 7
          [HashItem.mk [107] [116], HashItem.mk [107] [115]]) ∧
      encontrarSuspeito (Function.update (Function.update tabelaVazia 7
          [HashItem.mk [107] [115]]) 7 [HashItem.mk [107] [116], HashItem.mk [107] [115]])
        [107] [] = some (1, [116]) := by
  have h1 : inserirNaHash tabelaVazia [107] [115] =
      some (Function.update tabelaVazia 7 [HashItem.mk [107] [115]]) := rfl
  have h2 : inserirVarias (Function.update tabelaVazia 7 [HashItem.mk [107] [115]]) [] =
      some (Function.update tabelaVazia 7 [HashItem.mk [107] [115]]) := rfl
  have h3 : inserirNaHash (Function.update tabelaVazia 7 [HashItem.mk [107] [115]])
      [107] [116] =
        some (Function.update (Function.update tabelaVazia 7 [HashItem.mk [107] [115]]) 7
          [HashItem.mk [107] [116], HashItem.mk [107] [115]]) := rfl
  exact ⟨by decide, h1, h2, h3,
    (C5_ultima_insercao_prevalece _ _ _ _ [107] [115] [116] [] [] (by decide) h1 h2 h3).1⟩

/-- C6 fails on the code: for the three-byte key `ça` (bytes C3 A7 61) the
`char` values sum to -53 and `funcaoHash` returns -3, which is no index of
`tabelaHash`, so both `inserirNaHash` and `encontrarSuspeito` index the table
out of bounds on it. -/
theorem C6_funcaoHash_indice_negativo :
    bytes "ça" = [195, 167, 97] ∧
      funcaoHash (bytes "ça") = -3 ∧
      indiceValido (funcaoHash (bytes "ça")) = none ∧
      (inserirNaHash tabelaVazia (bytes "ça") (bytes "Senhora")).isNone = true ∧
      encontrarSuspeito tabelaVazia (bytes "ça") [] = none := by
  decide

/-- C7 fails on the code: for the one-byte key `0xC3` (character code 195, sum
of codes 195, 195 modulo 10 = 5) `funcaoHash` returns -1. -/
theorem C7_funcaoHash_byte_alto :
    funcaoHash [195] = -1 ∧ ([195] : CStr).sum % 10 = 5 := by
  decide

/-! ## The tally -/

theorem verificarRaiz_eq (t : TabelaHash) (c a : CStr) :
    verificarRaiz t c a =
      if (indiceValido (funcaoHash c)).isSome then
        some (if resolvePara t a c then 1 else 0)
      else none := by
  unfold verificarRaiz resolvePara encontrarSuspeito
  cases indiceValido (funcaoHash c) with
  | none => rfl
  | some i =>
    simp only [Option.isSome_some, if_true]
    by_cases h1 : (encontrarNaLista c [] (t i)).1 = 0
    · simp [h1]
    · by_cases h2 : (encontrarNaLista c [] (t i)).2 = a
      · simp [h1, h2, strcmp_self]
      · simp [h1, h2, strcmp_eq_zero_iff]

theorem contarPreOrdem_eq (t : TabelaHash) (raiz : PistaNode) (a : CStr) :
    contarPreOrdem t raiz a = contarPistasPorSuspeito t raiz a := by
  induction raiz with
  | nulo => rfl
  | no c l r ihl ihr =>
    simp only [contarPreOrdem, contarPistasPorSuspeito, ihl, ihr]
    cases contarPistasPorSuspeito t l a <;> cases verificarRaiz t c a <;>
      cases contarPistasPorSuspeito t r a <;> first | (simp; omega) | simp

theorem contarPosOrdem_eq (t : TabelaHash) (raiz : PistaNode) (a : CStr) :
    contarPosOrdem t raiz a = contarPistasPorSuspeito t raiz a := by
  induction raiz with
  | nulo => rfl
  | no c l r ihl ihr =>
    simp only [contarPosOrdem, contarPistasPorSuspeito, ihl, ihr]
    cases contarPistasPorSuspeito t l a <;> cases verificarRaiz t c a <;>
      cases contarPistasPorSuspeito t r a <;> first | (simp; omega) | simp

theorem contarPistasPorSuspeito_eq (t : TabelaHash) (raiz : PistaNode) (a : CStr) :
    contarPistasPorSuspeito t raiz a =
      if acessosValidos raiz then
        some (((exibirPistas raiz).countP (resolvePara t a) : Nat) : Int)
      else none := by
  induction raiz with
  | nulo => rfl
  | no c l r ihl ihr =>
    simp only [contarPistasPorSuspeito, ihl, ihr, verificarRaiz_eq]
    simp only [acessosValidos] at *
    simp only [exibirPistas, List.all_append, List.all_cons, List.countP_append,
      List.countP_cons]
    by_cases hl : ((exibirPistas l).all fun c => (indiceValido (funcaoHash c)).isSome) = true <;>
      by_cases hc : (indiceValido (funcaoHash c)).isSome = true <;>
      by_cases hr : ((exibirPistas r).all fun c => (indiceValido (funcaoHash c)).isSome) = true <;>
      by_cases hres : resolvePara t a c = true <;>
      first | (simp [hl, hc, hr, hres]; omega) | simp [hl, hc, hr, hres]

/-- C9: for every ledger, table and accused name, `contarPistasPorSuspeito`
returns the number of nodes whose content resolves through `encontrarSuspeito`
to a name equal to the accused (it has a result exactly when every lookup
stays inside the table); a content without an entry does not count, also for
the empty accused name; and the tallies taken in pre-order and in post-order
are the same as the in-order one. -/
theorem C9_contagem_independe_da_ordem (t : TabelaHash) (raiz : PistaNode) (a : CStr) :
    contarPistasPorSuspeito t raiz a =
        (if acessosValidos raiz then
          some (((exibirPistas raiz).countP (resolvePara t a) : Nat) : Int)
        else none) ∧
      (∀ c buffer, encontrarSuspeito t c [] = some (0, buffer) →
        resolvePara t a c = false ∧ verificarRaiz t c a = some 0) ∧
      contarPreOrdem t raiz a = contarPistasPorSuspeito t raiz a ∧
      contarPosOrdem t raiz a = contarPistasPorSuspeito t raiz a := by
  refine ⟨contarPistasPorSuspeito_eq t raiz a, ?_, contarPreOrdem_eq t raiz a,
    contarPosOrdem_eq t raiz a⟩
  intro c buffer h
  simp [resolvePara, verificarRaiz, h]

theorem C9_contagem_independe_da_ordem_witness :
    encontrarSuspeito tabelaVazia [107] [] = some (0, []) ∧
      resolvePara tabelaVazia [] [107] = false ∧ verificarRaiz tabelaVazia [107] [] = some 0 :=
  ⟨by decide,
    (C9_contagem_independe_da_ordem tabelaVazia .nulo []).2.1 [107] [] (by decide)⟩

/-! ## Exploration -/

theorem em_limparPista {mapa : Sala} {caminho : List Direcao} {nome c suspeito : CStr}
    {e d : Sala} (h : mapa.em caminho = .no nome c suspeito e d) :
    (mapa.limparPista caminho).em caminho = .no nome [] suspeito e d := by
  induction caminho generalizing mapa with
  | nil =>
    simp only [Sala.em] at h
    subst h
    simp [Sala.limparPista, Sala.em]
  | cons dir resto ih =>
    cases mapa with
    | nulo => simp [Sala.em] at h
    | no n p s l r =>
      cases dir with
      | esquerda =>
        simp only [Sala.em] at h
        simp only [Sala.limparPista, Sala.em]
        exact ih h
      | direita =>
        simp only [Sala.em] at h
        simp only [Sala.limparPista, Sala.em]
        exact ih h

theorem pistasColetadas_append (a b : List Evento) :
    pistasColetadas (a ++ b) = pistasColetadas a ++ pistasColetadas b := by
  induction a with
  | nil => rfl
  | cons ev resto ih => cases ev <;> simp [pistasColetadas, ih]

/-- A visit to a room whose clue is empty collects nothing and changes neither
the map nor the ledger. -/
theorem visitar_sem_pista (t : TabelaHash) (st : Exploracao) {nome suspeito : CStr}
    {e d : Sala} (h : st.mapa.em st.salaAtual = .no nome [] suspeito e d) :
    visitar t st = .ok ⟨st.mapa, st.salaAtual, st.pistasRaiz, st.entrada,
      st.saida ++ [Evento.voceEstaEm nome] ++ [Evento.semNovasPistas]⟩ := by
  simp [visitar, h]

/-- A visit to a room with a clue inserts that clue into the ledger and clears
it in the room. -/
theorem visitar_com_pista (t : TabelaHash) (st : Exploracao) {nome c suspeito : CStr}
    {e d : Sala} (h : st.mapa.em st.salaAtual = .no nome c suspeito e d) (hc : c ≠ [])
    (hidx : (indiceValido (funcaoHash c)).isSome = true) :
    ∃ retorno, visitar t st = .ok ⟨st.mapa.limparPista st.salaAtual, st.salaAtual,
      inserirPista st.pistasRaiz c, st.entrada,
      st.saida ++ [Evento.voceEstaEm nome] ++ [Evento.pistaEncontrada c] ++ [retorno]⟩ ∧
      pistasColetadas [retorno] = [] ∧ salasVisitadas [retorno] = [] := by
  obtain ⟨i, hi⟩ := Option.isSome_iff_exists.mp hidx
  have hlen : 0 < c.length := List.length_pos.mpr hc
  by_cases hachou : (encontrarNaLista c [] (t i)).1 = 0
  · exact ⟨Evento.suspeitoNaoEncontrado,
      by simp [visitar, h, hlen, encontrarSuspeito, hi, hachou], rfl, rfl⟩
  · exact ⟨Evento.apontaPara (encontrarNaLista c [] (t i)).2,
      by simp [visitar, h, hlen, encontrarSuspeito, hi, hachou], rfl, rfl⟩

/-- C8: when the current room holds a non-empty clue `c` (and the lookup of `c`
for the feedback message stays inside the table), the visit made by the loop
body inserts exactly `c` into the ledger, announces it as the one clue
collected, and clears the clue of the room; a later visit to that room, in any
state with the same map, finds the clue empty, collects nothing and leaves the
ledger and the map as they are. -/
theorem C8_pista_coletada_uma_vez (t : TabelaHash) (st : Exploracao)
    (nome c suspeito : CStr) (e d : Sala)
    (hsala : st.mapa.em st.salaAtual = .no nome c suspeito e d) (hc : c ≠ [])
    (hidx : (indiceValido (funcaoHash c)).isSome = true) :
    ∃ st1, visitar t st = .ok st1 ∧
      st1.pistasRaiz = inserirPista st.pistasRaiz c ∧
      pistasColetadas st1.saida = pistasColetadas st.saida ++ [c] ∧
      st1.salaAtual = st.salaAtual ∧
      st1.mapa = st.mapa.limparPista st.salaAtual ∧
      st1.mapa.em st.salaAtual = .no nome [] suspeito e d ∧
      ∀ st2 : Exploracao, st2.mapa = st1.mapa → st2.salaAtual = st.salaAtual →
        ∃ st3, visitar t st2 = .ok st3 ∧ st3.pistasRaiz = st2.pistasRaiz ∧
          st3.mapa = st2.mapa ∧ pistasColetadas st3.saida = pistasColetadas st2.saida := by
  obtain ⟨retorno, hv, hret, -⟩ := visitar_com_pista t st hsala hc hidx
  refine ⟨_, hv, rfl, ?_, rfl, rfl, em_limparPista hsala, ?_⟩
  · simp [pistasColetadas_append, pistasColetadas, hret]
  · intro st2 hm hs
    have h2 : st2.mapa.em st2.salaAtual = .no nome [] suspeito e d := by
      rw [hm, hs]; exact em_limparPista hsala
    refine ⟨_, visitar_sem_pista t st2 h2, rfl, rfl, ?_⟩
    simp [pistasColetadas_append, pistasColetadas]

theorem C8_pista_coletada_uma_vez_witness :
    (Exploracao.mk (criarSala [72] [112] [115]) [] .nulo [] []).mapa.em [] =
        .no [72] [112] [115] .nulo .nulo ∧
      ([112] : CStr) ≠ [] ∧
      (indiceValido (funcaoHash [112])).isSome = true ∧
      ∃ st1, visitar tabelaVazia (Exploracao.mk (criarSala [72] [112] [115]) [] .nulo [] [])
          = .ok st1 ∧
        st1.pistasRaiz = inserirPista .nulo [112] ∧
        st1.mapa.em [] = .no [72] [] [115] .nulo .nulo := by
  refine ⟨rfl, by decide, by decide, ?_⟩
  obtain ⟨st1, h1, h2, _, _, _, h3, _⟩ :=
    C8_pista_coletada_uma_vez tabelaVazia (Exploracao.mk (criarSala [72] [112] [115]) [] .nulo [] [])
      [72] [112] [115] .nulo .nulo rfl (by decide) (by decide)
  exact ⟨st1, h1, h2, h3⟩

/-! ## Termination of the exploration loop -/

theorem fgetsLoop_resto_le (n : Nat) (entrada : List Nat) :
    (fgetsLoop n entrada).2.length ≤ entrada.length := by
  induction n generalizing entrada with
  | zero => simp [fgetsLoop]
  | succ n ih =>
    cases entrada with
    | nil => simp [fgetsLoop]
    | cons c resto =>
      simp only [fgetsLoop]
      split_ifs
      · simp
      · have := ih resto
        simp only [List.length_cons]
        omega

theorem fgets_resto_lt {tamanho : Nat} {entrada lidos resto : List Nat} (ht : 2 ≤ tamanho)
    (h : fgets tamanho entrada = some (lidos, resto)) : resto.length < entrada.length := by
  cases entrada with
  | nil => simp [fgets] at h
  | cons c r =>
    obtain ⟨k, hk⟩ : ∃ k, tamanho - 1 = k + 1 := ⟨tamanho - 2, by omega⟩
    simp only [fgets, hk, fgetsLoop, Option.some.injEq] at h
    split_ifs at h
    · simp only [Prod.mk.injEq] at h
      rw [← h.2]; simp
    · simp only [Prod.mk.injEq] at h
      have := fgetsLoop_resto_le k r
      rw [← h.2]
      simp only [List.length_cons]
      omega

theorem visitar_entrada {t : TabelaHash} {st st1 : Exploracao} (h : visitar t st = .ok st1) :
    st1.entrada = st.entrada := by
  unfold visitar at h
  split at h
  · simp only [Resultado.ok.injEq] at h
    rw [← h]
  · split_ifs at h
    · split at h
      · simp at h
      · simp only [Resultado.ok.injEq] at h
        rw [← h]
    · simp only [Resultado.ok.injEq] at h
      rw [← h]

theorem decidir_entrada {st : Exploracao} (h : (decidir st).2 = true) :
    (decidir st).1.entrada.length < st.entrada.length := by
  unfold decidir at h ⊢
  cases hf : fgets 5 st.entrada with
  | none => simp [hf] at h
  | some p =>
    obtain ⟨lidos, resto⟩ := p
    have hlt := fgets_resto_lt (by decide) hf
    simp only [hf] at h ⊢
    split_ifs at h ⊢ <;> exact hlt

/-- The step bound of `explorarSalas` is never reached: the loop ends by
itself on every input. -/
theorem explorarLoop_termina (t : TabelaHash) (passos : Nat) (st : Exploracao)
    (h : st.entrada.length < passos) : explorarLoop t passos st ≠ .semPassos := by
  induction passos generalizing st with
  | zero => omega
  | succ n ih =>
    unfold explorarLoop
    split_ifs
    · simp
    · cases hv : visitar t st with
      | foraDaTabela => simp [passo, hv]
      | semPassos =>
        exfalso
        unfold visitar at hv
        split at hv
        · cases hv
        · split_ifs at hv
          all_goals first | cases hv | (split at hv <;> cases hv)
      | ok st1 =>
        have he : st1.entrada.length = st.entrada.length := by rw [visitar_entrada hv]
        simp only [passo, hv]
        cases hd : decidir st1 with
        | mk st2 continua =>
          cases continua with
          | false => simp
          | true =>
            simp only
            apply ih
            have := @decidir_entrada st1 (by rw [hd])
            rw [hd] at this
            simp only at this
            omega

theorem explorarSalas_termina (t : TabelaHash) (mapaRaiz : Sala) (pistasRaiz : PistaNode)
    (entrada : List Nat) : explorarSalas t mapaRaiz pistasRaiz entrada ≠ .semPassos :=
  explorarLoop_termina t _ _ (Nat.lt_succ_self _)

/-! ## Scenarios -/

/-- C10 (scenario A): from the state built by `montarMapaEHash` and an empty
ledger, the commands `d`, `d`, `s` visit Hall de Entrada, Cozinha and Sala de
Jantar and collect their three clues; the tally for `Empregado` is 1, below
`MIN_PISTAS`, and the session ends with the failure verdict. -/
theorem C10_cenario_A :
    observar (bytes "d\nd\ns\n") (bytes "Empregado") =
        some ([bytes "Hall de Entrada", bytes "Cozinha", bytes "Sala de Jantar"],
          [bytes "Encontrado um ticket de onibus na lareira.",
           bytes "A faca sumiu, mas o chef nao se lembra.",
           bytes "Havia um forte cheiro de cigarro barato."],
          [bytes "A faca sumiu, mas o chef nao se lembra.",
           bytes "Encontrado um ticket de onibus na lareira.",
           bytes "Havia um forte cheiro de cigarro barato."],
          some 1) ∧
      ¬ ((1 : Int) ≥ MIN_PISTAS) ∧
      main (bytes "d\nd\ns\nEmpregado\n") =
        .ok ([Evento.voceEstaEm (bytes "Hall de Entrada"),
          Evento.pistaEncontrada (bytes "Encontrado um ticket de onibus na lareira."),
          Evento.apontaPara (bytes "Empregado"),
          Evento.voceEstaEm (bytes "Cozinha"),
          Evento.pistaEncontrada (bytes "A faca sumiu, mas o chef nao se lembra."),
          Evento.apontaPara (bytes "Chef"),
          Evento.voceEstaEm (bytes "Sala de Jantar"),
          Evento.pistaEncontrada (bytes "Havia um forte cheiro de cigarro barato."),
          Evento.apontaPara (bytes "Mordomo"),
          Evento.encerrando,
          Evento.dossie [bytes "A faca sumiu, mas o chef nao se lembra.",
            bytes "Encontrado um ticket de onibus na lareira.",
            bytes "Havia um forte cheiro de cigarro barato."],
          Evento.verificando (bytes "Empregado"),
          Evento.resultado (bytes "Empregado") 1,
          Evento.fracasso (bytes "Empregado")], 0) := by
  decide!

/-- C11 (scenario B): from the state built by `montarMapaEHash` and an empty
ledger, the commands `d`, `e`, `s` visit Hall de Entrada, Cozinha and Despensa;
the tally for `Empregado` is 2, which meets `MIN_PISTAS`, and the session ends
with the success verdict. -/
theorem C11_cenario_B :
    observar (bytes "d\ne\ns\n") (bytes "Empregado") =
        some ([bytes "Hall de Entrada", bytes "Cozinha", bytes "Despensa"],
          [bytes "Encontrado um ticket de onibus na lareira.",
           bytes "A faca sumiu, mas o chef nao se lembra.",
           bytes "O cofre estava aberto e vazio."],
          [bytes "A faca sumiu, mas o chef nao se lembra.",
           bytes "Encontrado um ticket de onibus na lareira.",
           bytes "O cofre estava aberto e vazio."],
          some 2) ∧
      (2 : Int) ≥ MIN_PISTAS ∧
      main (bytes "d\ne\ns\nEmpregado\n") =
        .ok ([Evento.voceEstaEm (bytes "Hall de Entrada"),
          Evento.pistaEncontrada (bytes "Encontrado um ticket de onibus na lareira."),
          Evento.apontaPara (bytes "Empregado"),
          Evento.voceEstaEm (bytes "Cozinha"),
          Evento.pistaEncontrada (bytes "A faca sumiu, mas o chef nao se lembra."),
          Evento.apontaPara (bytes "Chef"),
          Evento.voceEstaEm (bytes "Despensa"),
          Evento.pistaEncontrada (bytes "O cofre estava aberto e vazio."),
          Evento.apontaPara (bytes "Empregado"),
          Evento.encerrando,
          Evento.dossie [bytes "A faca sumiu, mas o chef nao se lembra.",
            bytes "Encontrado um ticket de onibus na lareira.",
            bytes "O cofre estava aberto e vazio."],
          Evento.verificando (bytes "Empregado"),
          Evento.resultado (bytes "Empregado") 2,
          Evento.sucesso (bytes "Empregado")], 0) := by
  decide!

/-- C12 (scenario C): from the state built by `montarMapaEHash` and an empty
ledger, the commands `e`, `e`, `e`, `s` visit Hall de Entrada, Sala de Estar,
Biblioteca and Escritorio; on the resulting ledger the tally for `Senhora` is 2
and the verdict is success, the tally for `Mordomo` is 1 and the verdict is
failure. -/
theorem C12_cenario_C :
    observar (bytes "e\ne\ne\ns\n") (bytes "Senhora") =
        some ([bytes "Hall de Entrada", bytes "Sala de Estar", bytes "Biblioteca",
            bytes "Escritorio (Folha)"],
          [bytes "Encontrado um ticket de onibus na lareira.",
           bytes "A maça mordida tinha batom vermelho.",
           bytes "Uma pagina de diario com data rasgada.",
           bytes "Uma luva de seda preta no chao."],
          [bytes "A maça mordida tinha batom vermelho.",
           bytes "Encontrado um ticket de onibus na lareira.",
           bytes "Uma luva de seda preta no chao.",
           bytes "Uma pagina de diario com data rasgada."],
          some 2) ∧
      (observar (bytes "e\ne\ne\ns\n") (bytes "Mordomo")).map (fun o => o.2.2.2) =
        some (some 1) ∧
      (2 : Int) ≥ MIN_PISTAS ∧ ¬ ((1 : Int) ≥ MIN_PISTAS) ∧
      (main (bytes "e\ne\ne\ns\nSenhora\n")).map (fun r => (r.1.drop 14, r.2)) =
        .ok ([Evento.verificando (bytes "Senhora"),
          Evento.resultado (bytes "Senhora") 2,
          Evento.sucesso (bytes "Senhora")], 0) ∧
      (main (bytes "e\ne\ne\ns\nMordomo\n")).map (fun r => (r.1.drop 14, r.2)) =
        .ok ([Evento.verificando (bytes "Mordomo"),
          Evento.resultado (bytes "Mordomo") 1,
          Evento.fracasso (bytes "Mordomo")], 0) := by
  decide!

/-- C14 fails on the code: on the input `e`, `e`, `d`, `e`, `s` the command `d`
at Biblioteca, which has no right child, sets `salaAtual` to `NULL` and ends
the loop. Escritorio is never visited, its clue is not collected, the lines
`e` and `s` are left unread by the exploration and `e` is then taken as the
name of the accused. -/
theorem C14_beco_encerra_exploracao :
    (explorarSalas tabelaConstruida mapaConstruido .nulo (bytes "e\ne\nd\ne\ns\n")).map
        (fun st => (st.salaAtual, mapaConstruido.em st.salaAtual)) =
        .ok ([Direcao.esquerda, Direcao.esquerda, Direcao.direita], Sala.nulo) ∧
      (explorarSalas tabelaConstruida mapaConstruido .nulo (bytes "e\ne\nd\ne\ns\n")).map
        (fun st => st.entrada) = .ok (bytes "e\ns\n") ∧
      (explorarSalas tabelaConstruida mapaConstruido .nulo (bytes "e\ne\nd\ne\ns\n")).map
        (fun st => salasVisitadas st.saida) =
        .ok [bytes "Hall de Entrada", bytes "Sala de Estar", bytes "Biblioteca"] ∧
      (explorarSalas tabelaConstruida mapaConstruido .nulo (bytes "e\ne\nd\ne\ns\n")).map
        (fun st => exibirPistas st.pistasRaiz) =
        .ok [bytes "A maça mordida tinha batom vermelho.",
          bytes "Encontrado um ticket de onibus na lareira.",
          bytes "Uma pagina de diario com data rasgada."] ∧
      (main (bytes "e\ne\nd\ne\ns\n")).map (fun r => r.1.drop 9) =
        .ok [Evento.caminhoDireitoFinalizado,
          Evento.dossie [bytes "A maça mordida tinha batom vermelho.",
            bytes "Encontrado um ticket de onibus na lareira.",
            bytes "Uma pagina de diario com data rasgada."],
          Evento.verificando (bytes "e"),
          Evento.resultado (bytes "e") 0,
          Evento.fracasso (bytes "e")] := by
  decide!

theorem montarMapaEHash_eq : montarMapaEHash = some (mapaConstruido, tabelaConstruida) := by
  have h : montarMapaEHash.isSome = true := by decide!
  unfold mapaConstruido tabelaConstruida
  generalize montarMapaEHash = r at h ⊢
  cases r with
  | none => simp at h
  | some p => rfl

/-- C16: in the state produced by `montarMapaEHash` the map has eight rooms,
seven of them (all but Jardim) with a non-empty clue, and for every room with a
non-empty clue `encontrarSuspeito` on that clue returns 1 and yields the
`suspeitoPista` of that same room. -/
theorem C16_pistas_registradas :
    montarMapaEHash = some (mapaConstruido, tabelaConstruida) ∧
      (mapaConstruido.todas.map fun s => (s.nomeDe, s.pistaDe, s.suspeitoDe)) =
        [(bytes "Hall de Entrada", bytes "Encontrado um ticket de onibus na lareira.",
            bytes "Empregado"),
          (bytes "Sala de Estar", bytes "A maça mordida tinha batom vermelho.",
            bytes "Senhora"),
          (bytes "Biblioteca", bytes "Uma pagina de diario com data rasgada.",
            bytes "Senhora"),
          (bytes "Escritorio (Folha)", bytes "Uma luva de seda preta no chao.",
            bytes "Mordomo"),
          (bytes "Jardim", [], []),
          (bytes "Cozinha", bytes "A faca sumiu, mas o chef nao se lembra.", bytes "Chef"),
          (bytes "Despensa", bytes "O cofre estava aberto e vazio.", bytes "Empregado"),
          (bytes "Sala de Jantar", bytes "Havia um forte cheiro de cigarro barato.",
            bytes "Mordomo")] ∧
      (∀ s ∈ mapaConstruido.todas, s.pistaDe ≠ [] →
        encontrarSuspeito tabelaConstruida s.pistaDe [] = some (1, s.suspeitoDe)) ∧
      (mapaConstruido.todas.filter fun s => s.pistaDe ≠ []).length = 7 ∧
      (mapaConstruido.todas.map fun s => funcaoHash s.pistaDe) = [5, 9, 8, 5, 0, 8, 7, 8] :=
  ⟨montarMapaEHash_eq, by decide!, by decide!, by decide!, by decide!⟩

/-- C20: for every table, every insertion `inserirNaHash(k, s)` and every text
`q` different from the stored key (the first 79 bytes of `k`), the return value
and the buffer of `encontrarSuspeito(q)` are the same after the insertion as
before it, whatever the buckets of `q` and `k`. -/
theorem C20_insercao_preserva_outras_chaves (t t' : TabelaHash) (k s q buffer : CStr)
    (h : inserirNaHash t k s = some t') (hq : q ≠ strncpy k 79) :
    encontrarSuspeito t' q buffer = encontrarSuspeito t q buffer :=
  encontrarSuspeito_inserirNaHash_outro buffer h (fun e => hq e.symm)

theorem C20_insercao_preserva_outras_chaves_witness :
    inserirNaHash (Function.update tabelaVazia 7 [HashItem.mk [117] [118]]) [107] [115] =
        some (Function.update (Function.update tabelaVazia 7 [HashItem.mk [117] [118]]) 7
          [HashItem.mk [107] [115], HashItem.mk [117] [118]]) ∧
      ([117] : CStr) ≠ strncpy [107] 79 ∧
      funcaoHash [117] = funcaoHash [107] ∧
      encontrarSuspeito (Function.update (Function.update tabelaVazia 7
          [HashItem.mk [117] [118]]) 7 [HashItem.mk [107] [115], HashItem.mk [117] [118]])
        [117] [] =
        encontrarSuspeito (Function.update tabelaVazia 7 [HashItem.mk [117] [118]]) [117] [] := by
  have h : inserirNaHash (Function.update tabelaVazia 7 [HashItem.mk [117] [118]]) [107] [115] =
      some (Function.update (Function.update tabelaVazia 7 [HashItem.mk [117] [118]]) 7
        [HashItem.mk [107] [115], HashItem.mk [117] [118]]) := rfl
  exact ⟨h, by decide, by decide,
    C20_insercao_preserva_outras_chaves _ _ [107] [115] [117] [] h (by decide)⟩

/-! ## Insertion into an ordered ledger -/

theorem ordenada_of_estrita {t : PistaNode} (h : OrdenadaEstrita t) : Ordenada t := by
  induction t with
  | nulo => trivial
  | no x l r ihl ihr =>
    obtain ⟨hl, hr, hol, hor⟩ := h
    exact ⟨fun y hy => le_of_lt (hl y hy), fun y hy => le_of_lt (hr y hy), ihl hol, ihr hor⟩

theorem ordenada_inserirPista_curta {t : PistaNode} {c : CStr} (hc : c.length < 80)
    (h : Ordenada t) : Ordenada (inserirPista t c) := by
  have hcopy : strncpy c 79 = c := strncpy_of_length_le (by omega)
  induction t with
  | nulo => simp [inserirPista, criarPistaNode, Ordenada, exibirPistas]
  | no x l r ihl ihr =>
    obtain ⟨hl, hr, hol, hor⟩ := h
    rw [inserirPista_no]
    split_ifs with h1 h2
    · refine ⟨?_, hr, ihl hol, hor⟩
      intro y hy
      rcases mem_exibirPistas_inserirPista hy with hy | hy
      · exact hl y hy
      · rw [hy, hcopy]; exact le_of_lt h1
    · refine ⟨hl, ?_, hol, ihr hor⟩
      intro y hy
      rcases mem_exibirPistas_inserirPista hy with hy | hy
      · exact hr y hy
      · rw [hy, hcopy]
        have := strcmp_swap c x
        omega
    · exact ⟨hl, hr, hol, hor⟩

/-- A content already in an ordered ledger is found by the descent of
`inserirPista`, which then returns the tree as it is. -/
theorem inserirPista_presente {t : PistaNode} {c : CStr} (h : Ordenada t)
    (hc : c ∈ exibirPistas t) : inserirPista t c = t := by
  induction t with
  | nulo => simp [exibirPistas] at hc
  | no x l r ihl ihr =>
    obtain ⟨hl, hr, hol, hor⟩ := h
    simp only [exibirPistas, List.mem_append, List.mem_cons] at hc
    rw [inserirPista_no]
    split_ifs with h1 h2
    · rcases hc with hc | hc | hc
      · rw [ihl hol hc]
      · rw [hc, strcmp_self] at h1; exact absurd h1 (by decide)
      · have h3 := hr c hc
        have := strcmp_swap c x
        omega
    · rcases hc with hc | hc | hc
      · have h3 := hl c hc
        omega
      · rw [hc, strcmp_self] at h2; exact absurd h2 (by decide)
      · rw [ihr hor hc]
    · rfl

/-- A content absent from an ordered ledger is placed between the contents
below it and the contents above it. -/
theorem exibirPistas_inserirPista_ausente {t : PistaNode} {c : CStr} (hlen : c.length < 80)
    (h : Ordenada t) (hc : c ∉ exibirPistas t) :
    ∃ antes depois, exibirPistas t = antes ++ depois ∧
      exibirPistas (inserirPista t c) = antes ++ c :: depois ∧
      (∀ y ∈ antes, strcmp y c < 0) ∧ (∀ y ∈ depois, strcmp c y < 0) := by
  have hcopy : strncpy c 79 = c := strncpy_of_length_le (by omega)
  induction t with
  | nulo =>
    exact ⟨[], [], rfl, by simp [inserirPista, criarPistaNode, exibirPistas, hcopy],
      by simp, by simp⟩
  | no x l r ihl ihr =>
    obtain ⟨hl, hr, hol, hor⟩ := h
    simp only [exibirPistas, List.mem_append, List.mem_cons, not_or] at hc
    obtain ⟨hcl, hcx, hcr⟩ := hc
    rw [inserirPista_no]
    split_ifs with h1 h2
    · obtain ⟨a, d, e1, e2, ha, hd⟩ := ihl hol hcl
      refine ⟨a, d ++ x :: exibirPistas r, ?_, ?_, ha, ?_⟩
      · simp [exibirPistas, e1]
      · simp [exibirPistas, e2]
      · intro y hy
        simp only [List.mem_append, List.mem_cons] at hy
        rcases hy with hy | hy | hy
        · exact hd y hy
        · rw [hy]; exact h1
        · exact strcmp_lt_of_lt_of_le h1 (hr y hy)
    · obtain ⟨a, d, e1, e2, ha, hd⟩ := ihr hor hcr
      have hxc : strcmp x c < 0 := by
        have := strcmp_swap c x
        omega
      refine ⟨exibirPistas l ++ x :: a, d, ?_, ?_, ?_, hd⟩
      · simp [exibirPistas, e1]
      · simp [exibirPistas, e2]
      · intro y hy
        simp only [List.mem_append, List.mem_cons] at hy
        rcases hy with hy | hy | hy
        · exact strcmp_lt_of_le_of_lt (hl y hy) hxc
        · rw [hy]; exact hxc
        · exact ha y hy
    · exfalso
      have h0 : strcmp c x = 0 := by omega
      exact hcx (strcmp_eq_zero h0)

/-- C18: for every ledger `t` that satisfies the search-tree ordering (in its
non-strict form, so in its strict form too) and every clue text `c` shorter
than 80 bytes, the in-order enumeration of `inserirPista(t, c)` holds `c`,
every content of `t` and nothing else; it is the enumeration of `t` unchanged
when `c` was present, and the enumeration of `t` with `c` put between the
contents below it and the contents above it when `c` was absent; the result
is ordered again, strictly when `t` was. -/
theorem C18_insercao_na_posicao_ordenada (t : PistaNode) (c : CStr) (hc : c.length < 80)
    (h : Ordenada t) :
    (∀ y, y ∈ exibirPistas (inserirPista t c) ↔ y = c ∨ y ∈ exibirPistas t) ∧
      (c ∈ exibirPistas t → exibirPistas (inserirPista t c) = exibirPistas t) ∧
      (c ∉ exibirPistas t →
        ∃ antes depois, exibirPistas t = antes ++ depois ∧
          exibirPistas (inserirPista t c) = antes ++ c :: depois ∧
          (∀ y ∈ antes, strcmp y c < 0) ∧ (∀ y ∈ depois, strcmp c y < 0)) ∧
      Ordenada (inserirPista t c) ∧
      (OrdenadaEstrita t → OrdenadaEstrita (inserirPista t c)) := by
  refine ⟨?_, fun hp => by rw [inserirPista_presente h hp],
    exibirPistas_inserirPista_ausente hc h, ordenada_inserirPista_curta hc h,
    ordenadaEstrita_inserirPista hc⟩
  intro y
  by_cases hp : c ∈ exibirPistas t
  · rw [inserirPista_presente h hp]
    constructor
    · exact fun hy => Or.inr hy
    · rintro (hy | hy)
      · rw [hy]; exact hp
      · exact hy
  · obtain ⟨a, d, e1, e2, _, _⟩ := exibirPistas_inserirPista_ausente hc h hp
    rw [e1, e2]
    simp only [List.mem_append, List.mem_cons]
    tauto

theorem C18_insercao_na_posicao_ordenada_witness :
    ([98] : CStr).length < 80 ∧
      Ordenada (.no [99] (.no [97] .nulo .nulo) .nulo) ∧
      exibirPistas (inserirPista (.no [99] (.no [97] .nulo .nulo) .nulo) [98]) =
        [[97], [98], [99]] ∧
      Ordenada (inserirPista (.no [99] (.no [97] .nulo .nulo) .nulo) [98]) := by
  have ho : Ordenada (.no [99] (.no [97] .nulo .nulo) .nulo) := by
    simp [Ordenada, exibirPistas, strcmp]
  exact ⟨by decide, ho, by decide,
    (C18_insercao_na_posicao_ordenada (.no [99] (.no [97] .nulo .nulo) .nulo) [98]
      (by decide) ho).2.2.2.1⟩

/-! ## What a step of the exploration changes -/

theorem em_nulo (q : List Direcao) : Sala.nulo.em q = .nulo := by
  cases q <;> rfl

theorem semPistas_limparPista (mapa : Sala) (p : List Direcao) :
    (mapa.limparPista p).semPistas = mapa.semPistas := by
  induction mapa generalizing p with
  | nulo => rfl
  | no n c s e d ihe ihd =>
    cases p with
    | nil => rfl
    | cons dir resto =>
      cases dir with
      | esquerda => simp [Sala.limparPista, Sala.semPistas, ihe]
      | direita => simp [Sala.limparPista, Sala.semPistas, ihd]

theorem pistaDe_em_limparPista (mapa : Sala) (p q : List Direcao) :
    ((mapa.limparPista p).em q).pistaDe = if q = p then [] else (mapa.em q).pistaDe := by
  induction mapa generalizing p q with
  | nulo =>
    have h : Sala.limparPista .nulo p = .nulo := by cases p <;> rfl
    simp [h, em_nulo, Sala.pistaDe]
  | no n c s e d ihe ihd =>
    cases p with
    | nil =>
      cases q with
      | nil => simp [Sala.limparPista, Sala.em, Sala.pistaDe]
      | cons dq rq => cases dq <;> simp [Sala.limparPista, Sala.em]
    | cons dp rp =>
      cases dp with
      | esquerda =>
        cases q with
        | nil => simp [Sala.limparPista, Sala.em, Sala.pistaDe]
        | cons dq rq => cases dq <;> simp [Sala.limparPista, Sala.em, ihe]
      | direita =>
        cases q with
        | nil => simp [Sala.limparPista, Sala.em, Sala.pistaDe]
        | cons dq rq => cases dq <;> simp [Sala.limparPista, Sala.em, ihd]

theorem em_semPistas (mapa : Sala) (q : List Direcao) :
    mapa.semPistas.em q = (mapa.em q).semPistas := by
  induction mapa generalizing q with
  | nulo => simp [Sala.semPistas, em_nulo]
  | no n c s e d ihe ihd =>
    cases q with
    | nil => rfl
    | cons dq rq => cases dq <;> simp [Sala.semPistas, Sala.em, ihe, ihd]

theorem campos_of_semPistas {a b : Sala} (h : a.semPistas = b.semPistas) :
    a.nomeDe = b.nomeDe ∧ a.suspeitoDe = b.suspeitoDe ∧ (a = .nulo ↔ b = .nulo) := by
  cases a <;> cases b <;> simp_all [Sala.semPistas, Sala.nomeDe, Sala.suspeitoDe]

theorem visitar_mapa {t : TabelaHash} {st st1 : Exploracao} (h : visitar t st = .ok st1) :
    (st1.mapa = st.mapa ∨ st1.mapa = st.mapa.limparPista st.salaAtual) ∧
      st1.salaAtual = st.salaAtual := by
  unfold visitar at h
  split at h
  · simp only [Resultado.ok.injEq] at h
    rw [← h]; exact ⟨Or.inl rfl, rfl⟩
  · split_ifs at h
    · split at h
      · simp at h
      · simp only [Resultado.ok.injEq] at h
        rw [← h]; exact ⟨Or.inr rfl, rfl⟩
    · simp only [Resultado.ok.injEq] at h
      rw [← h]; exact ⟨Or.inl rfl, rfl⟩

theorem decidir_mapa (st : Exploracao) :
    (decidir st).1.mapa = st.mapa ∧ (decidir st).1.pistasRaiz = st.pistasRaiz := by
  unfold decidir
  split
  · exact ⟨rfl, rfl⟩
  · dsimp only
    split_ifs <;> exact ⟨rfl, rfl⟩

theorem passo_mapa {t : TabelaHash} {st st' : Exploracao} {continua : Bool}
    (h : passo t st = .ok (st', continua)) :
    st'.mapa = st.mapa ∨ st'.mapa = st.mapa.limparPista st.salaAtual := by
  unfold passo at h
  cases hv : visitar t st with
  | foraDaTabela => simp [hv] at h
  | semPassos => simp [hv] at h
  | ok st1 =>
    simp only [hv, Resultado.ok.injEq] at h
    have h1 := (visitar_mapa hv).1
    have h2 := (decidir_mapa st1).1
    rw [h] at h2
    simp only at h2
    rw [h2]
    exact h1

theorem explorarLoop_mapa {t : TabelaHash} (passos : Nat) {st stf : Exploracao}
    (h : explorarLoop t passos st = .ok stf) :
    stf.mapa.semPistas = st.mapa.semPistas ∧
      ∀ q, (st.mapa.em q).pistaDe = [] → (stf.mapa.em q).pistaDe = [] := by
  induction passos generalizing st with
  | zero => simp [explorarLoop] at h
  | succ n ih =>
    unfold explorarLoop at h
    split_ifs at h
    · simp only [Resultado.ok.injEq] at h
      rw [← h]; exact ⟨rfl, fun q hq => hq⟩
    · have hstep : ∀ st1 c, passo t st = .ok (st1, c) →
          st1.mapa.semPistas = st.mapa.semPistas ∧
            ∀ q, (st.mapa.em q).pistaDe = [] → (st1.mapa.em q).pistaDe = [] := by
        intro st1 c hp
        rcases passo_mapa hp with hm | hm
        · rw [hm]; exact ⟨rfl, fun q hq => hq⟩
        · rw [hm]
          refine ⟨semPistas_limparPista _ _, fun q hq => ?_⟩
          rw [pistaDe_em_limparPista]
          split_ifs
          · rfl
          · exact hq
      split at h
      · rename_i st1 hp
        obtain ⟨h1, h2⟩ := hstep st1 true hp
        obtain ⟨h3, h4⟩ := ih h
        exact ⟨h3.trans h1, fun q hq => h4 q (h2 q hq)⟩
      · rename_i st1 hp
        simp only [Resultado.ok.injEq] at h
        rw [← h]
        exact hstep st1 false hp
      · simp at h
      · simp at h

/-- C19: for every state and every iteration of the loop of `explorarSalas`
that ends in a state `st'`, the map of `st'` is the map before, or the map
before with the clue of the current room cleared. Hence a room whose clue was
empty still has an empty clue, only the room being visited can change its
clue, and the name, the suspect and the presence of every room are as before
(the maps are equal once all clues are erased). The same holds from the start
to the end of any run of the loop. The table is an argument of the step, never
a result: no entry of the Suspect Index changes. -/
theorem C19_exploracao_so_limpa_pista_atual (t : TabelaHash) (st st' : Exploracao)
    (continua : Bool) (h : passo t st = .ok (st', continua)) :
    (st'.mapa = st.mapa ∨ st'.mapa = st.mapa.limparPista st.salaAtual) ∧
      st'.mapa.semPistas = st.mapa.semPistas ∧
      (∀ q, ((st.mapa.em q).pistaDe = [] → (st'.mapa.em q).pistaDe = []) ∧
        (q ≠ st.salaAtual → (st'.mapa.em q).pistaDe = (st.mapa.em q).pistaDe) ∧
        (st'.mapa.em q).nomeDe = (st.mapa.em q).nomeDe ∧
        (st'.mapa.em q).suspeitoDe = (st.mapa.em q).suspeitoDe ∧
        (st'.mapa.em q = .nulo ↔ st.mapa.em q = .nulo)) ∧
      (∀ passos st0 stf, explorarLoop t passos st0 = .ok stf →
        stf.mapa.semPistas = st0.mapa.semPistas ∧
          ∀ q, (st0.mapa.em q).pistaDe = [] → (stf.mapa.em q).pistaDe = []) := by
  have hm := passo_mapa h
  have hsem : st'.mapa.semPistas = st.mapa.semPistas := by
    rcases hm with hm | hm
    · rw [hm]
    · rw [hm]; exact semPistas_limparPista _ _
  refine ⟨hm, hsem, fun q => ?_, fun passos st0 stf hl => explorarLoop_mapa passos hl⟩
  have hq : (st'.mapa.em q).semPistas = (st.mapa.em q).semPistas := by
    rw [← em_semPistas, ← em_semPistas, hsem]
  obtain ⟨hn, hs, hnul⟩ := campos_of_semPistas hq
  refine ⟨?_, ?_, hn, hs, hnul⟩
  · intro he
    rcases hm with hm | hm
    · rw [hm]; exact he
    · rw [hm, pistaDe_em_limparPista]
      split_ifs
      · rfl
      · exact he
  · intro hne
    rcases hm with hm | hm
    · rw [hm]
    · rw [hm, pistaDe_em_limparPista, if_neg hne]

theorem C19_exploracao_so_limpa_pista_atual_witness :
    passo tabelaVazia (Exploracao.mk (criarSala [72] [112] [115]) [] .nulo [120, 10] []) =
        .ok (Exploracao.mk (.no [72] [] [115] .nulo .nulo) [] (criarPistaNode [112]) []
          [Evento.voceEstaEm [72], Evento.pistaEncontrada [112],
            Evento.suspeitoNaoEncontrado, Evento.opcaoInvalida], true) ∧
      (Sala.no [72] [] [115] .nulo .nulo = criarSala [72] [112] [115] ∨
        Sala.no [72] [] [115] .nulo .nulo = (criarSala [72] [112] [115]).limparPista []) := by
  have h : passo tabelaVazia (Exploracao.mk (criarSala [72] [112] [115]) [] .nulo [120, 10] []) =
      .ok (Exploracao.mk (.no [72] [] [115] .nulo .nulo) [] (criarPistaNode [112]) []
        [Evento.voceEstaEm [72], Evento.pistaEncontrada [112],
          Evento.suspeitoNaoEncontrado, Evento.opcaoInvalida], true) := by decide
  exact ⟨h, (C19_exploracao_so_limpa_pista_atual _ _ _ _ h).1⟩

/-! ## Commands that are not recognised -/

theorem hall_presente : mapaConstruido.em [] ≠ .nulo ∧ mapaConstruido ≠ .nulo := by
  decide!

/-- When the exploration leaves a ledger that is not empty, `main` prints
the dossier and goes on to the judgement. -/
theorem main_com_pistas (entrada : List Nat) (st : Exploracao)
    (h : explorarSalas tabelaConstruida mapaConstruido .nulo entrada = .ok st)
    (hp : st.pistasRaiz ≠ .nulo) :
    main entrada =
      (verificarSuspeitoFinal tabelaConstruida st.pistasRaiz st.entrada).map
        (fun r => (st.saida ++ [Evento.dossie (exibirPistas st.pistasRaiz)] ++ r.1, 0)) := by
  unfold main
  rw [montarMapaEHash_eq]
  simp only [if_neg hall_presente.2, h, hp, ne_eq, not_false_eq_true, if_true]
  cases verificarSuspeitoFinal tabelaConstruida st.pistasRaiz st.entrada with
  | ok r => rfl
  | foraDaTabela => rfl
  | semPassos => rfl

theorem em_limparPrefixos (mapa : Sala) (p : List Direcao) :
    (mapa.limparPrefixos p).em p = mapa.em p := by
  induction p generalizing mapa with
  | nil => cases mapa <;> rfl
  | cons d r ih =>
    cases mapa with
    | nulo => rfl
    | no n c s e f => cases d <;> simp [Sala.limparPrefixos, Sala.em, ih]

theorem limparPrefixos_snoc (mapa : Sala) (p : List Direcao) (d : Direcao) :
    mapa.limparPrefixos (p ++ [d]) = (mapa.limparPrefixos p).limparPista p := by
  induction p generalizing mapa with
  | nil =>
    cases mapa with
    | nulo => rfl
    | no n c s e f => cases d <;> simp [Sala.limparPrefixos, Sala.limparPista]
  | cons d' r ih =>
    cases mapa with
    | nulo => rfl
    | no n c s e f => cases d' <;> simp [Sala.limparPrefixos, Sala.limparPista, ih]

theorem salasAcima_snoc (mapa : Sala) (p : List Direcao) (d : Direcao) :
    mapa.salasAcima (p ++ [d]) = mapa.salasNoCaminho p := by
  induction p generalizing mapa with
  | nil =>
    cases mapa with
    | nulo => simp [Sala.salasNoCaminho, Sala.salasAcima, Sala.em]
    | no n c s e f => cases d <;> simp [Sala.salasNoCaminho, Sala.salasAcima, Sala.em]
  | cons d' r ih =>
    cases mapa with
    | nulo => simp [Sala.salasNoCaminho, Sala.salasAcima, Sala.em]
    | no n c s e f =>
      cases d' <;> simp [Sala.salasAcima, ih] <;> simp [Sala.salasNoCaminho, Sala.salasAcima, Sala.em]

theorem limparPista_of_vazia (mapa : Sala) (p : List Direcao)
    (h : (mapa.em p).pistaDe = []) : mapa.limparPista p = mapa := by
  induction mapa generalizing p with
  | nulo => cases p <;> rfl
  | no n c s e f ihe ihf =>
    cases p with
    | nil =>
      simp only [Sala.em, Sala.pistaDe] at h
      simp [Sala.limparPista, h]
    | cons d r =>
      cases d with
      | esquerda =>
        simp only [Sala.em] at h
        simp [Sala.limparPista, ihe r h]
      | direita =>
        simp only [Sala.em] at h
        simp [Sala.limparPista, ihf r h]

theorem em_limparPista_nulo (mapa : Sala) (p q : List Direcao) :
    (mapa.limparPista p).em q = .nulo ↔ mapa.em q = .nulo := by
  have h : ((mapa.limparPista p).em q).semPistas = (mapa.em q).semPistas := by
    rw [← em_semPistas, ← em_semPistas, semPistas_limparPista]
  exact (campos_of_semPistas h).2.2

theorem salasVisitadas_append (a b : List Evento) :
    salasVisitadas (a ++ b) = salasVisitadas a ++ salasVisitadas b := by
  induction a with
  | nil => rfl
  | cons ev resto ih => cases ev <;> simp [salasVisitadas, ih]

theorem pistasDasSalas_append (a b : List Sala) :
    pistasDasSalas (a ++ b) = pistasDasSalas a ++ pistasDasSalas b := by
  simp [pistasDasSalas]

theorem inserirTodas_append (t : PistaNode) (a b : List CStr) :
    inserirTodas t (a ++ b) = inserirTodas (inserirTodas t a) b := by
  simp [inserirTodas, List.foldl_append]

theorem salasNoCaminho_presente {mapa : Sala} {p : List Direcao} (h : mapa.em p ≠ .nulo) :
    mapa.salasNoCaminho p = mapa.salasAcima p ++ [mapa.em p] := by
  simp [Sala.salasNoCaminho, h]

theorem salasNoCaminho_ausente {mapa : Sala} {p : List Direcao} (h : mapa.em p = .nulo) :
    mapa.salasNoCaminho p = mapa.salasAcima p := by
  simp [Sala.salasNoCaminho, h]

theorem percorreu_visita_nova {salas : List Sala} {st : Exploracao} {nome c s : CStr}
    {e d : Sala} {retorno : Evento} (h : Percorreu salas st)
    (h1 : pistasColetadas [retorno] = []) (h2 : salasVisitadas [retorno] = []) (hc : c ≠ []) :
    Percorreu (salas ++ [.no nome c s e d])
      ⟨st.mapa.limparPista st.salaAtual, st.salaAtual, inserirPista st.pistasRaiz c, st.entrada,
        st.saida ++ [Evento.voceEstaEm nome] ++ [Evento.pistaEncontrada c] ++ [retorno]⟩ := by
  obtain ⟨hl, hr, hp⟩ := h
  have hps : pistasDasSalas [Sala.no nome c s e d] = [c] := by
    simp [pistasDasSalas, Sala.pistaDe, hc]
  refine ⟨?_, ?_, ?_⟩
  · simp only [pistasDasSalas_append, inserirTodas_append, ← hl, hps]
    rfl
  · simp only [List.map_append, List.map_cons, List.map_nil, Sala.nomeDe,
      salasVisitadas_append, h2, salasVisitadas, List.append_nil]
    exact Repete.novo nome hr
  · simp only [pistasColetadas_append, pistasDasSalas_append, hp, hps, h1, pistasColetadas,
      List.append_nil]

theorem percorreu_visita_vazia {salas : List Sala} {st : Exploracao} {nome s : CStr}
    {e d : Sala} (h : Percorreu salas st) :
    Percorreu (salas ++ [.no nome [] s e d])
      ⟨st.mapa, st.salaAtual, st.pistasRaiz, st.entrada,
        st.saida ++ [Evento.voceEstaEm nome] ++ [Evento.semNovasPistas]⟩ := by
  obtain ⟨hl, hr, hp⟩ := h
  have hps : pistasDasSalas [Sala.no nome [] s e d] = [] := by
    simp [pistasDasSalas, Sala.pistaDe]
  refine ⟨?_, ?_, ?_⟩
  · simp only [pistasDasSalas_append, hps, List.append_nil]
    exact hl
  · simp only [List.map_append, List.map_cons, List.map_nil, Sala.nomeDe,
      salasVisitadas_append, salasVisitadas, List.append_nil]
    exact Repete.novo nome hr
  · simp only [pistasColetadas_append, pistasDasSalas_append, hps, pistasColetadas,
      List.append_nil]
    exact hp

theorem percorreu_outra_visita {salas : List Sala} {st : Exploracao} {nome c s : CStr}
    {e d : Sala} (h : Percorreu (salas ++ [.no nome c s e d]) st) :
    Percorreu (salas ++ [.no nome c s e d])
      ⟨st.mapa, st.salaAtual, st.pistasRaiz, st.entrada,
        st.saida ++ [Evento.voceEstaEm nome] ++ [Evento.semNovasPistas]⟩ := by
  obtain ⟨hl, hr, hp⟩ := h
  refine ⟨hl, ?_, ?_⟩
  · simp only [List.map_append, List.map_cons, List.map_nil, Sala.nomeDe,
      salasVisitadas_append, salasVisitadas, List.append_nil] at hr ⊢
    exact Repete.outra nome hr
  · simp only [pistasColetadas_append, pistasColetadas, List.append_nil]
    exact hp

/-- The visit of a room keeps the loop invariant, whether the room is entered
for the first time or visited again. -/
theorem visitar_invariante {t : TabelaHash} {inicial : Sala} {st : Exploracao}
    (hreg : PistasRegulares inicial)
    (hinv : InvChegada inicial st ∨ InvVisitada inicial st)
    (hsala : st.mapa.em st.salaAtual ≠ .nulo) :
    ∃ st1, visitar t st = .ok st1 ∧ InvVisitada inicial st1 ∧ st1.entrada = st.entrada := by
  have hM : inicial.em st.salaAtual ≠ .nulo := by
    rcases hinv with ⟨hm, _⟩ | ⟨hm, _⟩
    · rw [hm, em_limparPrefixos] at hsala
      exact hsala
    · rw [hm] at hsala
      intro h0
      apply hsala
      rw [em_limparPista_nulo, em_limparPrefixos]
      exact h0
  have hcam := salasNoCaminho_presente hM
  have hcur := hreg st.salaAtual
  cases hroom : inicial.em st.salaAtual with
  | nulo => exact absurd hroom hM
  | no nome c sus e d =>
    rw [hroom] at hcam hcur
    rcases hinv with ⟨hm, hper⟩ | ⟨hm, hper⟩
    · have hst : st.mapa.em st.salaAtual = .no nome c sus e d := by
        rw [hm, em_limparPrefixos, hroom]
      by_cases hc : c = []
      · subst hc
        refine ⟨_, visitar_sem_pista t st hst, ⟨?_, ?_⟩, rfl⟩
        · show st.mapa = (inicial.limparPrefixos st.salaAtual).limparPista st.salaAtual
          rw [limparPista_of_vazia _ _ (by rw [em_limparPrefixos, hroom]; rfl)]
          exact hm
        · show Percorreu (inicial.salasNoCaminho st.salaAtual) _
          rw [hcam]
          exact percorreu_visita_vazia hper
      · obtain ⟨retorno, hv, hr1, hr2⟩ := visitar_com_pista t st hst hc hcur.2
        refine ⟨_, hv, ⟨?_, ?_⟩, rfl⟩
        · show st.mapa.limparPista st.salaAtual = _
          rw [hm]
        · show Percorreu (inicial.salasNoCaminho st.salaAtual) _
          rw [hcam]
          exact percorreu_visita_nova hper hr1 hr2 hc
    · have hst : st.mapa.em st.salaAtual = .no nome [] sus e d := by
        rw [hm]
        exact em_limparPista (by rw [em_limparPrefixos, hroom])
      refine ⟨_, visitar_sem_pista t st hst, ⟨hm, ?_⟩, rfl⟩
      show Percorreu (inicial.salasNoCaminho st.salaAtual) _
      rw [hcam] at hper ⊢
      exact percorreu_outra_visita hper

/-- What `decidir` can do to a state: it keeps the map and the ledger, adds
messages that announce neither a room nor a clue, and either stays in the room
or, going on, steps to one of its children. -/
theorem decidir_forma (st : Exploracao) :
    ∃ p resto extra,
      decidir st = (⟨st.mapa, p, st.pistasRaiz, resto, st.saida ++ extra⟩, (decidir st).2) ∧
      salasVisitadas extra = [] ∧ pistasColetadas extra = [] ∧
      (p = st.salaAtual ∨ ((decidir st).2 = true ∧ ∃ d, p = st.salaAtual ++ [d])) := by
  unfold decidir
  split
  · exact ⟨st.salaAtual, st.entrada, [], by simp, rfl, rfl, Or.inl rfl⟩
  · rename_i lidos resto _
    dsimp only
    split_ifs
    · exact ⟨_, resto, [Evento.encerrando], rfl, rfl, rfl, Or.inl rfl⟩
    · exact ⟨_, resto, [Evento.caminhoEsquerdoFinalizado], rfl, rfl, rfl,
        Or.inr ⟨rfl, _, rfl⟩⟩
    · exact ⟨st.salaAtual ++ [Direcao.esquerda], resto, [], by simp, rfl, rfl,
        Or.inr ⟨rfl, _, rfl⟩⟩
    · exact ⟨_, resto, [Evento.caminhoDireitoFinalizado], rfl, rfl, rfl,
        Or.inr ⟨rfl, _, rfl⟩⟩
    · exact ⟨st.salaAtual ++ [Direcao.direita], resto, [], by simp, rfl, rfl,
        Or.inr ⟨rfl, _, rfl⟩⟩
    · exact ⟨_, resto, [Evento.opcaoInvalida], rfl, rfl, rfl, Or.inl rfl⟩

theorem percorreu_mensagens {salas : List Sala} {st : Exploracao} (h : Percorreu salas st)
    (m : Sala) (p : List Direcao) (resto : List Nat) {extra : List Evento}
    (h1 : salasVisitadas extra = []) (h2 : pistasColetadas extra = []) :
    Percorreu salas ⟨m, p, st.pistasRaiz, resto, st.saida ++ extra⟩ := by
  obtain ⟨hl, hr, hp⟩ := h
  refine ⟨hl, ?_, ?_⟩
  · simp only [salasVisitadas_append, h1, List.append_nil]
    exact hr
  · simp only [pistasColetadas_append, h2, List.append_nil]
    exact hp

/-- The command keeps the loop invariant: the state it leaves is that of a
visited room when the player stays, that of an arrival when the player moves. -/
theorem decidir_invariante {inicial : Sala} {st : Exploracao}
    (hinv : InvVisitada inicial st) :
    ((decidir st).2 = false → InvVisitada inicial (decidir st).1) ∧
      ((decidir st).2 = true →
        InvChegada inicial (decidir st).1 ∨ InvVisitada inicial (decidir st).1) := by
  obtain ⟨p, resto, extra, hd, h1, h2, hp⟩ := decidir_forma st
  obtain ⟨hm, hper⟩ := hinv
  have hfst : (decidir st).1 = ⟨st.mapa, p, st.pistasRaiz, resto, st.saida ++ extra⟩ := by
    rw [hd]
  rw [hfst]
  rcases hp with hp | ⟨hcont, d, hp⟩
  · subst hp
    have hv : InvVisitada inicial
        ⟨st.mapa, st.salaAtual, st.pistasRaiz, resto, st.saida ++ extra⟩ :=
      ⟨hm, percorreu_mensagens hper _ _ _ h1 h2⟩
    exact ⟨fun _ => hv, fun _ => Or.inr hv⟩
  · subst hp
    have hc : InvChegada inicial
        ⟨st.mapa, st.salaAtual ++ [d], st.pistasRaiz, resto, st.saida ++ extra⟩ := by
      refine ⟨?_, ?_⟩
      · show st.mapa = inicial.limparPrefixos (st.salaAtual ++ [d])
        rw [limparPrefixos_snoc]
        exact hm
      · show Percorreu (inicial.salasAcima (st.salaAtual ++ [d])) _
        rw [salasAcima_snoc]
        exact percorreu_mensagens hper _ _ _ h1 h2
    refine ⟨fun hf => ?_, fun _ => Or.inl hc⟩
    rw [hcont] at hf
    exact absurd hf (by decide)

/-- The loop of `explorarSalas`, started in a state that satisfies the
invariant, ends in a state in which every room along the path to the current
room has been visited. -/
theorem explorarLoop_invariante {t : TabelaHash} {inicial : Sala}
    (hreg : PistasRegulares inicial) (passos : Nat) (st : Exploracao)
    (hinv : InvChegada inicial st ∨ InvVisitada inicial st)
    (hfuel : explorarLoop t passos st ≠ .semPassos) :
    ∃ stf, explorarLoop t passos st = .ok stf ∧
      Percorreu (inicial.salasNoCaminho stf.salaAtual) stf := by
  induction passos generalizing st with
  | zero => exact absurd rfl hfuel
  | succ n ih =>
    rw [explorarLoop] at hfuel ⊢
    by_cases hsala : st.mapa.em st.salaAtual = .nulo
    · rw [if_pos hsala]
      refine ⟨st, rfl, ?_⟩
      rcases hinv with ⟨hm, hper⟩ | ⟨_, hper⟩
      · rw [hm, em_limparPrefixos] at hsala
        rw [salasNoCaminho_ausente hsala]
        exact hper
      · exact hper
    · rw [if_neg hsala] at hfuel ⊢
      obtain ⟨st1, hv, hinv1, _⟩ := @visitar_invariante t _ _ hreg hinv hsala
      obtain ⟨hfalse, htrue⟩ := decidir_invariante hinv1
      simp only [passo, hv] at hfuel ⊢
      cases hd : decidir st1 with
      | mk st2 continua =>
        rw [hd] at hfuel hfalse htrue
        cases continua with
        | false => exact ⟨st2, rfl, (hfalse rfl).2⟩
        | true => exact ih st2 (htrue rfl) hfuel

theorem mem_exibirPistas_inserirPista_iff (t : PistaNode) {c : CStr} (hc : c.length < 80)
    (y : CStr) : y ∈ exibirPistas (inserirPista t c) ↔ y ∈ exibirPistas t ∨ y = c := by
  have hcopy : strncpy c 79 = c := strncpy_of_length_le (by omega)
  constructor
  · intro h
    have := mem_exibirPistas_inserirPista h
    rwa [hcopy] at this
  · induction t with
    | nulo =>
      intro h
      simpa [inserirPista, criarPistaNode, exibirPistas, hcopy] using h
    | no x l r ihl ihr =>
      intro h
      rw [inserirPista_no]
      split_ifs with h1 h2
      · simp only [exibirPistas, List.mem_append, List.mem_cons] at h ⊢
        rcases h with (h | h | h) | h
        · exact Or.inl (ihl (Or.inl h))
        · exact Or.inr (Or.inl h)
        · exact Or.inr (Or.inr h)
        · exact Or.inl (ihl (Or.inr h))
      · simp only [exibirPistas, List.mem_append, List.mem_cons] at h ⊢
        rcases h with (h | h | h) | h
        · exact Or.inl h
        · exact Or.inr (Or.inl h)
        · exact Or.inr (Or.inr (ihr (Or.inl h)))
        · exact Or.inr (Or.inr (ihr (Or.inr h)))
      · rcases h with h | h
        · exact h
        · have h0 : strcmp c x = 0 := by omega
          rw [h, strcmp_eq_zero h0]
          simp [exibirPistas]

theorem mem_exibirPistas_inserirTodas (t : PistaNode) (cs : List CStr)
    (hcs : ∀ x ∈ cs, x.length < 80) (y : CStr) :
    y ∈ exibirPistas (inserirTodas t cs) ↔ y ∈ exibirPistas t ∨ y ∈ cs := by
  induction cs generalizing t with
  | nil => simp [inserirTodas]
  | cons c cs ih =>
    have h := ih (inserirPista t c) (fun x hx => hcs x (List.mem_cons_of_mem c hx))
    simp only [inserirTodas, List.foldl_cons] at h ⊢
    rw [h, mem_exibirPistas_inserirPista_iff t (hcs c (List.mem_cons_self c cs))]
    simp only [List.mem_cons]
    tauto

theorem em_todas (mapa : Sala) (q : List Direcao) :
    mapa.em q = .nulo ∨ mapa.em q ∈ mapa.todas := by
  induction mapa generalizing q with
  | nulo => exact Or.inl (em_nulo q)
  | no n c s e d ihe ihd =>
    cases q with
    | nil => exact Or.inr (by simp [Sala.em, Sala.todas])
    | cons dir r =>
      cases dir with
      | esquerda =>
        rcases ihe r with h | h
        · exact Or.inl (by simpa [Sala.em] using h)
        · exact Or.inr (by simp [Sala.em, Sala.todas, h])
      | direita =>
        rcases ihd r with h | h
        · exact Or.inl (by simpa [Sala.em] using h)
        · exact Or.inr (by simp [Sala.em, Sala.todas, h])

theorem pistasRegulares_of_todas {mapa : Sala}
    (h : ∀ s ∈ mapa.todas, s.pistaDe.length < 80 ∧
      (indiceValido (funcaoHash s.pistaDe)).isSome = true) : PistasRegulares mapa := by
  intro q
  rcases em_todas mapa q with h0 | h0
  · rw [h0]
    decide
  · exact h _ h0

theorem pistasRegulares_mapaConstruido : PistasRegulares mapaConstruido :=
  pistasRegulares_of_todas (by decide!)

theorem salasAcima_de_em (mapa : Sala) (p : List Direcao) :
    ∀ s ∈ mapa.salasAcima p, ∃ q, s = mapa.em q := by
  induction p generalizing mapa with
  | nil => cases mapa <;> simp [Sala.salasAcima]
  | cons d r ih =>
    cases mapa with
    | nulo => simp [Sala.salasAcima]
    | no n c su e f =>
      cases d with
      | esquerda =>
        intro s hs
        simp only [Sala.salasAcima, List.mem_cons] at hs
        rcases hs with hs | hs
        · exact ⟨[], by rw [hs]; rfl⟩
        · obtain ⟨q, hq⟩ := ih e s hs
          exact ⟨Direcao.esquerda :: q, by rw [hq]; rfl⟩
      | direita =>
        intro s hs
        simp only [Sala.salasAcima, List.mem_cons] at hs
        rcases hs with hs | hs
        · exact ⟨[], by rw [hs]; rfl⟩
        · obtain ⟨q, hq⟩ := ih f s hs
          exact ⟨Direcao.direita :: q, by rw [hq]; rfl⟩

theorem pistas_do_caminho_curtas {mapa : Sala} (hreg : PistasRegulares mapa)
    (p : List Direcao) : ∀ x ∈ pistasDasSalas (mapa.salasNoCaminho p), x.length < 80 := by
  intro x hx
  simp only [pistasDasSalas, List.mem_filter, List.mem_map] at hx
  obtain ⟨⟨s, hs, hsx⟩, _⟩ := hx
  have hq : ∃ q, s = mapa.em q := by
    simp only [Sala.salasNoCaminho, List.mem_append] at hs
    rcases hs with hs | hs
    · exact salasAcima_de_em mapa p s hs
    · split_ifs at hs
      · simp at hs
      · exact ⟨p, by simpa using hs⟩
  obtain ⟨q, hq⟩ := hq
  rw [← hsx, hq]
  exact (hreg q).1

theorem salasNoCaminho_head {mapa : Sala} (h : mapa ≠ .nulo) (p : List Direcao) :
    (mapa.salasNoCaminho p).head? = some mapa := by
  cases mapa with
  | nulo => exact absurd rfl h
  | no n c s e d =>
    cases p with
    | nil => simp [Sala.salasNoCaminho, Sala.salasAcima, Sala.em]
    | cons dir r => cases dir <;> simp [Sala.salasNoCaminho, Sala.salasAcima]

theorem invChegada_inicial (inicial : Sala) (entrada : List Nat) :
    InvChegada inicial ⟨inicial, [], .nulo, entrada, []⟩ := by
  refine ⟨?_, ?_, ?_, ?_⟩
  · cases inicial <;> rfl
  · cases inicial <;> rfl
  · cases inicial <;> exact Repete.nil
  · cases inicial <;> rfl

/-- From any map with regular clues and an empty ledger, `explorarSalas` ends
with every room on the path to the current room visited. -/
theorem explorarSalas_caminho (t : TabelaHash) {inicial : Sala}
    (hreg : PistasRegulares inicial) (entrada : List Nat) :
    ∃ st, explorarSalas t inicial .nulo entrada = .ok st ∧
      Percorreu (inicial.salasNoCaminho st.salaAtual) st := by
  unfold explorarSalas
  exact explorarLoop_invariante hreg _ _ (Or.inl (invChegada_inicial inicial entrada))
    (explorarLoop_termina t _ _ (Nat.lt_succ_self _))

/-- From any map with regular clues and an empty ledger, the ledger left by
`explorarSalas` lists in strictly increasing order exactly the clues of the
rooms on the path to the current room. -/
theorem explorarSalas_dossie (t : TabelaHash) {inicial : Sala}
    (hreg : PistasRegulares inicial) (hne : inicial ≠ .nulo) (entrada : List Nat) :
    ∃ st, explorarSalas t inicial .nulo entrada = .ok st ∧
      (exibirPistas st.pistasRaiz).Pairwise (fun a b => strcmp a b < 0) ∧
      (∀ x, x ∈ exibirPistas st.pistasRaiz ↔
        x ∈ pistasDasSalas (inicial.salasNoCaminho st.salaAtual)) ∧
      pistasColetadas st.saida = pistasDasSalas (inicial.salasNoCaminho st.salaAtual) ∧
      Repete ((inicial.salasNoCaminho st.salaAtual).map Sala.nomeDe)
        (salasVisitadas st.saida) ∧
      (inicial.salasNoCaminho st.salaAtual).head? = some inicial := by
  obtain ⟨st, hst, hl, hr, hp⟩ := explorarSalas_caminho t hreg entrada
  have hcurtas := pistas_do_caminho_curtas hreg st.salaAtual
  refine ⟨st, hst, ?_, ?_, hp, hr, salasNoCaminho_head hne _⟩
  · rw [hl]
    exact pairwise_of_ordenadaEstrita (inserirTodas_estrita .nulo _ hcurtas trivial)
  · intro x
    rw [hl, mem_exibirPistas_inserirTodas .nulo _ hcurtas]
    simp [exibirPistas]

/-- C17: for every input, `explorarSalas` on the freshly built map and an empty
ledger ends in a state whose path `salaAtual` starts at Hall de Entrada and
goes down from parent to child; the rooms announced are the rooms on that
path, in order, each one or more times; the clues collected are the non-empty
initial clues of these rooms in the order of the visits; and the in-order
enumeration of the final ledger is strictly increasing under `strcmp` and has
exactly these clues as its elements, so it is their sorted list without
duplicates. -/
theorem C17_dossie_do_caminho (entrada : List Nat) :
    ∃ st, explorarSalas tabelaConstruida mapaConstruido .nulo entrada = .ok st ∧
      (exibirPistas st.pistasRaiz).Pairwise (fun a b => strcmp a b < 0) ∧
      (∀ x, x ∈ exibirPistas st.pistasRaiz ↔
        x ∈ pistasDasSalas (mapaConstruido.salasNoCaminho st.salaAtual)) ∧
      pistasColetadas st.saida = pistasDasSalas (mapaConstruido.salasNoCaminho st.salaAtual) ∧
      Repete ((mapaConstruido.salasNoCaminho st.salaAtual).map Sala.nomeDe)
        (salasVisitadas st.saida) ∧
      (mapaConstruido.salasNoCaminho st.salaAtual).head? = some mapaConstruido ∧
      mapaConstruido.nomeDe = bytes "Hall de Entrada" := by
  obtain ⟨st, hst, h1, h2, h3, h4, h5⟩ :=
    explorarSalas_dossie tabelaConstruida pistasRegulares_mapaConstruido hall_presente.2
      entrada
  have h6 : mapaConstruido.nomeDe = bytes "Hall de Entrada" := by decide!
  exact ⟨st, hst, h1, h2, h3, h4, h5, h6⟩

theorem inserirPista_ne_nulo (t : PistaNode) (c : CStr) : inserirPista t c ≠ .nulo := by
  cases t with
  | nulo => simp [inserirPista, criarPistaNode]
  | no x l r =>
    rw [inserirPista_no]
    split_ifs <;> simp

theorem inserirTodas_ne_nulo (t : PistaNode) (cs : List CStr) (h : t ≠ .nulo) :
    inserirTodas t cs ≠ .nulo := by
  induction cs generalizing t with
  | nil => exact h
  | cons c cs ih => exact ih (inserirPista t c) (inserirPista_ne_nulo t c)

/-- From a map whose root holds a clue, the ledger left by `explorarSalas` is
never empty, on any input. -/
theorem explorarSalas_pistas_ne_nulo (t : TabelaHash) {inicial : Sala}
    (hreg : PistasRegulares inicial) (hne : inicial ≠ .nulo) (hc : inicial.pistaDe ≠ [])
    (entrada : List Nat) :
    ∃ st, explorarSalas t inicial .nulo entrada = .ok st ∧ st.pistasRaiz ≠ .nulo := by
  obtain ⟨st, hst, hl, _, _⟩ := explorarSalas_caminho t hreg entrada
  refine ⟨st, hst, ?_⟩
  have hh := salasNoCaminho_head hne st.salaAtual
  cases hs : inicial.salasNoCaminho st.salaAtual with
  | nil => rw [hs] at hh; simp at hh
  | cons a resto =>
    rw [hs] at hh hl
    simp only [List.head?_cons, Option.some.injEq] at hh
    subst hh
    have hp : pistasDasSalas (a :: resto) = a.pistaDe :: pistasDasSalas resto := by
      simp [pistasDasSalas, hc]
    rw [hl, hp]
    exact inserirTodas_ne_nulo (inserirPista .nulo a.pistaDe) (pistasDasSalas resto)
      (inserirPista_ne_nulo _ _)

/-- On no input does `main` find the ledger empty after the exploration: the
message that no accusation is possible is never printed. -/
theorem main_sempre_julga (entrada : List Nat) :
    ∃ st, explorarSalas tabelaConstruida mapaConstruido .nulo entrada = .ok st ∧
      st.pistasRaiz ≠ .nulo ∧
      main entrada =
        (verificarSuspeitoFinal tabelaConstruida st.pistasRaiz st.entrada).map
          (fun r => (st.saida ++ [Evento.dossie (exibirPistas st.pistasRaiz)] ++ r.1, 0)) := by
  have hc : mapaConstruido.pistaDe ≠ [] := by decide!
  obtain ⟨st, hst, hp⟩ := explorarSalas_pistas_ne_nulo tabelaConstruida
    pistasRegulares_mapaConstruido hall_presente.2 hc entrada
  exact ⟨st, hst, hp, main_com_pistas entrada st hst hp⟩

end DetectiveQuest
